import Mathlib

/-!
# `chips`: embedding and verified properties of `m6526.h`, `kbd.h` and `beeper.h`

The definitions of the three headers come first (namespaces `M6526`, `Kbd`, `Beeper`),
then the theorems about them.

## MOS 6526 CIA (`chips/m6526.h`)

The chip state `m6526_t` is embedded field by field.  Machine integers are natural
numbers; a store into a `uint8_t` / `uint16_t` object is an explicit reduction modulo
`2^8` / `2^16`.  The two host callbacks are external code: the byte returned by the
input callback is an argument of the reading functions, and every function returns the
list of callback invocations it made, in order.
-/

namespace M6526

/-! ## Machine arithmetic -/

/-- Conversion of an `int` value to `uint8_t`. -/
def u8 (x : Nat) : Nat := x % 256

/-- Conversion of an `int` value to `uint16_t`. -/
def u16 (x : Nat) : Nat := x % 65536

/-- The C operator `~` on an `int` operand (bytes are promoted to `int` first), given as
the 32-bit bit pattern of the (negative) result. -/
def bnot (x : Nat) : Nat := 0xFFFFFFFF ^^^ x

/-! ## Constants of the header -/

def M6526_RS : Nat := 0xF
def M6526_RW : Nat := 1 <<< 24
def M6526_CS : Nat := 1 <<< 40

def M6526_CRA_START : Nat := 1 <<< 0
def M6526_CRA_PBON : Nat := 1 <<< 1
def M6526_CRA_PBON_PB6ON : Nat := 1 <<< 1
def M6526_CRA_OUTMODE : Nat := 1 <<< 2
def M6526_CRA_RUNMODE : Nat := 1 <<< 3
def M6526_CRA_RUNMODE_ONESHOT : Nat := 1 <<< 3
def M6526_CRA_FORCE_LOAD : Nat := 1 <<< 4

def M6526_CRB_START : Nat := 1 <<< 0
def M6526_CRB_PBON : Nat := 1 <<< 1
def M6526_CRB_PBON_PB7ON : Nat := 1 <<< 1
def M6526_CRB_OUTMODE : Nat := 1 <<< 2
def M6526_CRB_RUNMODE : Nat := 1 <<< 3
def M6526_CRB_RUNMODE_ONESHOT : Nat := 1 <<< 3
def M6526_CRB_FORCE_LOAD : Nat := 1 <<< 4

def M6526_PORT_A : Nat := 0
def M6526_PORT_B : Nat := 1

/-! ## State -/

/-- The chip state `m6526_t`.  `in_cb` and `out_cb` are the two function pointers, kept as
addresses (`0` is the null pointer). -/
structure m6526_t where
  pra : Nat
  ddra : Nat
  pa : Nat
  pa_in : Nat
  prb : Nat
  ddrb : Nat
  pb : Nat
  pb_in : Nat
  ta_latch : Nat
  tb_latch : Nat
  ta_counter : Nat
  tb_counter : Nat
  cra : Nat
  crb : Nat
  icr_mask : Nat
  icr_data : Nat
  ta_bit : Nat
  tb_bit : Nat
  ta_nul : Nat
  tb_nul : Nat
  irq : Bool
  in_cb : Nat
  out_cb : Nat
  deriving DecidableEq, Repr

/-- One invocation of a host callback: `in_cb(port)` or `out_cb(port, data)`. -/
inductive cb_call where
  | in_call (port : Nat)
  | out_call (port : Nat) (data : Nat)
  deriving DecidableEq, Repr

/-- Every field of the state holds a value of its C type. -/
def m6526_t.wf (c : m6526_t) : Prop :=
  c.pra < 256 ∧ c.ddra < 256 ∧ c.pa < 256 ∧ c.pa_in < 256 ∧
  c.prb < 256 ∧ c.ddrb < 256 ∧ c.pb < 256 ∧ c.pb_in < 256 ∧
  c.ta_latch < 65536 ∧ c.tb_latch < 65536 ∧ c.ta_counter < 65536 ∧ c.tb_counter < 65536 ∧
  c.cra < 256 ∧ c.crb < 256 ∧ c.icr_mask < 256 ∧ c.icr_data < 256 ∧
  c.ta_bit < 256 ∧ c.tb_bit < 256 ∧ c.ta_nul < 256 ∧ c.tb_nul < 256

instance (c : m6526_t) : Decidable c.wf := by
  unfold m6526_t.wf; infer_instance

/-! ## Operations -/

/-- The state after `memset(c, 0, sizeof(*c))`. -/
def zeroed : m6526_t :=
  { pra := 0, ddra := 0, pa := 0, pa_in := 0,
    prb := 0, ddrb := 0, pb := 0, pb_in := 0,
    ta_latch := 0, tb_latch := 0, ta_counter := 0, tb_counter := 0,
    cra := 0, crb := 0, icr_mask := 0, icr_data := 0,
    ta_bit := 0, tb_bit := 0, ta_nul := 0, tb_nul := 0,
    irq := false, in_cb := 0, out_cb := 0 }

/-- `m6526_init`: the assertion `c && in_cb && out_cb` fails on a null callback
(result `none`); otherwise the state is zeroed and the power-on values are stored. -/
def m6526_init (in_cb out_cb : Nat) : Option m6526_t :=
  if in_cb ≠ 0 ∧ out_cb ≠ 0 then
    some
      { zeroed with
        in_cb := in_cb, out_cb := out_cb,
        ta_latch := 0xFFFF, tb_latch := 0xFFFF,
        pa := 0xFF, pb := 0xFF }
  else none

/-- `m6526_reset`. -/
def m6526_reset (c : m6526_t) : m6526_t :=
  { c with
    pra := 0, ddra := 0, pa_in := 0, pa := 0xFF,
    prb := 0, ddrb := 0, pb_in := 0, pb := 0xFF,
    ta_latch := 0xFFFF, tb_latch := 0xFFFF,
    ta_counter := 0, tb_counter := 0,
    cra := 0, crb := 0,
    icr_mask := 0, icr_data := 0,
    irq := false,
    ta_bit := 0, tb_bit := 0,
    ta_nul := 0, tb_nul := 0 }

/-- The local `data` of `_m6526_out_a`: `c->pra | (c->pa_in & ~c->ddra)`. -/
def out_a_data (c : m6526_t) : Nat :=
  u8 (c.pra ||| (c.pa_in &&& bnot c.ddra))

/-- `_m6526_out_a`. -/
def _m6526_out_a (c : m6526_t) : m6526_t × List cb_call :=
  let data := out_a_data c
  if data ≠ c.pa then
    ({ c with pa := data }, [cb_call.out_call M6526_PORT_A data])
  else (c, [])

/-- The merge of a timer output bit into bit `n` of a port byte:
`(data & ~(1<<n)) | (pbn<<n)`, stored into a `uint8_t`. -/
def merge_bit (data n pbn : Nat) : Nat :=
  u8 ((data &&& bnot (1 <<< n)) ||| (pbn <<< n))

/-- The two timer overrides of port B, shared by `_m6526_out_b` and `_m6526_in_b`. -/
def pb_override (c : m6526_t) (data : Nat) : Nat :=
  let data :=
    if c.cra &&& M6526_CRA_PBON = M6526_CRA_PBON_PB6ON then
      let pb6 := if c.cra &&& M6526_CRA_OUTMODE ≠ 0 then c.ta_bit else c.ta_nul
      merge_bit data 6 pb6
    else data
  if c.crb &&& M6526_CRB_PBON = M6526_CRB_PBON_PB7ON then
    let pb7 := if c.crb &&& M6526_CRB_OUTMODE ≠ 0 then c.tb_bit else c.tb_nul
    merge_bit data 7 pb7
  else data

/-- The local `data` of `_m6526_out_b` when it is compared with `c->pb`. -/
def out_b_data (c : m6526_t) : Nat :=
  pb_override c (u8 (c.prb ||| (c.pb_in &&& bnot c.ddrb)))

/-- `_m6526_out_b`. -/
def _m6526_out_b (c : m6526_t) : m6526_t × List cb_call :=
  let data := out_b_data c
  if data ≠ c.pb then
    ({ c with pb := data }, [cb_call.out_call M6526_PORT_B data])
  else (c, [])

/-- The value `_m6526_in_a` computes from the byte `i` returned by `in_cb(M6526_PORT_A)`. -/
def in_a_data (c : m6526_t) (i : Nat) : Nat :=
  if c.ddra ≠ 0xFF then u8 ((i &&& bnot c.ddra) ||| (c.pra &&& c.ddra))
  else u8 (i &&& c.pra)

/-- `_m6526_in_a`; `i` is the byte returned by `in_cb(M6526_PORT_A)`. -/
def _m6526_in_a (c : m6526_t) (i : Nat) : m6526_t × Nat × List cb_call :=
  let data := in_a_data c i
  ({ c with pa_in := data }, data, [cb_call.in_call M6526_PORT_A])

/-- The value `_m6526_in_b` computes from the byte `i` returned by `in_cb(M6526_PORT_B)`,
before the timer overrides. -/
def in_b_base (c : m6526_t) (i : Nat) : Nat :=
  if c.ddrb ≠ 0xFF then u8 ((i &&& bnot c.ddrb) ||| (c.prb &&& c.ddrb))
  else u8 (i &&& c.prb)

/-- `_m6526_in_b`; `i` is the byte returned by `in_cb(M6526_PORT_B)`. -/
def _m6526_in_b (c : m6526_t) (i : Nat) : m6526_t × Nat × List cb_call :=
  let data := in_b_base c i
  let c := { c with pb_in := data }
  (c, pb_override c data, [cb_call.in_call M6526_PORT_B])

/-- `_m6526_set_cra`. -/
def _m6526_set_cra (c : m6526_t) (data : Nat) : m6526_t × List cb_call :=
  let c :=
    if c.cra &&& M6526_CRA_START = 0 ∧ data &&& M6526_CRA_START ≠ 0 then
      { c with ta_bit := 1 }
    else c
  if data &&& M6526_CRA_FORCE_LOAD ≠ 0 then
    _m6526_out_b { c with ta_counter := c.ta_latch,
                          cra := u8 (data &&& bnot M6526_CRA_FORCE_LOAD) }
  else
    _m6526_out_b { c with cra := data }

/-- `_m6526_set_crb`. -/
def _m6526_set_crb (c : m6526_t) (data : Nat) : m6526_t × List cb_call :=
  let c :=
    if c.crb &&& M6526_CRB_START = 0 ∧ data &&& M6526_CRB_START ≠ 0 then
      { c with tb_bit := 1 }
    else c
  if data &&& M6526_CRB_FORCE_LOAD ≠ 0 then
    _m6526_out_b { c with tb_counter := c.tb_latch,
                          crb := u8 (data &&& bnot M6526_CRB_FORCE_LOAD) }
  else
    _m6526_out_b { c with crb := data }

/-- `_m6526_write`; `addr` and `data` are `uint8_t` arguments. -/
def _m6526_write (c : m6526_t) (addr data : Nat) : m6526_t × List cb_call :=
  match addr with
  | 0 => _m6526_out_a { c with pra := data }
  | 1 => _m6526_out_b { c with prb := data }
  | 2 => _m6526_out_a { c with ddra := data }
  | 3 => _m6526_out_b { c with ddrb := data }
  | 4 =>
    let c := { c with ta_latch := u16 ((c.ta_latch &&& 0xFF00) ||| data) }
    if c.cra &&& M6526_CRA_START = 0 then
      ({ c with ta_counter := u16 ((c.ta_counter &&& 0xFF00) ||| data) }, [])
    else (c, [])
  | 5 =>
    let c := { c with ta_latch := u16 ((c.ta_latch &&& 0xFF) ||| (data <<< 8)) }
    let c :=
      if c.cra &&& M6526_CRA_START = 0 then
        { c with ta_counter := u16 ((c.ta_counter &&& 0xFF) ||| (data <<< 8)) }
      else c
    if c.cra &&& M6526_CRA_RUNMODE = M6526_CRA_RUNMODE_ONESHOT then
      _m6526_set_cra { c with ta_counter := c.ta_latch } (u8 (c.cra ||| M6526_CRA_START))
    else (c, [])
  | 6 =>
    let c := { c with tb_latch := u16 ((c.tb_latch &&& 0xFF00) ||| data) }
    if c.crb &&& M6526_CRB_START = 0 then
      ({ c with tb_counter := u16 ((c.tb_counter &&& 0xFF00) ||| data) }, [])
    else (c, [])
  | 7 =>
    let c := { c with tb_latch := u16 ((c.tb_latch &&& 0xFF) ||| (data <<< 8)) }
    let c :=
      if c.crb &&& M6526_CRB_START = 0 then
        { c with tb_counter := u16 ((c.tb_counter &&& 0xFF) ||| (data <<< 8)) }
      else c
    if c.crb &&& M6526_CRB_RUNMODE = M6526_CRB_RUNMODE_ONESHOT then
      _m6526_set_crb { c with tb_counter := c.tb_latch } (u8 (c.crb ||| M6526_CRB_START))
    else (c, [])
  | 13 =>
    if data &&& (1 <<< 7) ≠ 0 then
      ({ c with icr_mask := u8 (c.icr_mask ||| data) }, [])
    else
      ({ c with icr_mask := u8 (c.icr_mask &&& bnot data) }, [])
  | 14 => _m6526_set_cra c data
  | 15 => _m6526_set_crb c data
  | _ => (c, [])

/-- `_m6526_read`; `i` is the byte the input callback returns if this read invokes it. -/
def _m6526_read (c : m6526_t) (i : Nat) (addr : Nat) : m6526_t × Nat × List cb_call :=
  match addr with
  | 0 => _m6526_in_a c i
  | 1 => _m6526_in_b c i
  | 2 => (c, c.ddra, [])
  | 3 => (c, c.ddrb, [])
  | 4 => (c, u8 (c.ta_counter &&& 0xFF), [])
  | 5 => (c, u8 (c.ta_counter >>> 8), [])
  | 6 => (c, u8 (c.tb_counter &&& 0xFF), [])
  | 7 => (c, u8 (c.tb_counter >>> 8), [])
  | 13 => ({ c with irq := false, icr_data := 0 }, c.icr_data, [])
  | 14 => (c, c.cra, [])
  | 15 => (c, c.crb, [])
  | _ => (c, 0xFF, [])

/-- `M6526_GET_DATA(p)`: `(uint8_t)(p>>16)`. -/
def M6526_GET_DATA (p : Nat) : Nat := u8 (p >>> 16)

/-- `M6526_SET_DATA(p,d)`: `(p & ~0xFF0000) | ((d&0xFF)<<16)` on a `uint64_t`; the `int`
constant `~0xFF0000` converts to the 64-bit pattern `0xFFFFFFFFFF00FFFF`. -/
def M6526_SET_DATA (p d : Nat) : Nat :=
  (p &&& 0xFFFFFFFFFF00FFFF) ||| ((d &&& 0xFF) <<< 16)

/-- `m6526_iorq`; `i` is the byte the input callback returns if the request invokes it. -/
def m6526_iorq (c : m6526_t) (i : Nat) (pins : Nat) : m6526_t × Nat × List cb_call :=
  if pins &&& M6526_CS ≠ 0 then
    let addr := u8 (pins &&& M6526_RS)
    if pins &&& M6526_RW ≠ 0 then
      let r := _m6526_read c i addr
      (r.1, M6526_SET_DATA pins r.2.1, r.2.2)
    else
      let w := _m6526_write c addr (M6526_GET_DATA pins)
      (w.1, pins, w.2)
  else (c, pins, [])

/-- `m6526_tick`: the body is `return pins;`. -/
def m6526_tick (c : m6526_t) (pins : Nat) : m6526_t × Nat × List cb_call :=
  (c, pins, [])

/-- The function `m6526_tick` applied `n` times to the same pins value. -/
def tick_n : Nat → m6526_t → Nat → m6526_t × List cb_call
  | 0, c, _ => (c, [])
  | n + 1, c, pins =>
    let r := m6526_tick c pins
    let s := tick_n n r.1 pins
    (s.1, r.2.2 ++ s.2)

/-! ## Observations used to state the port properties -/

/-- The port a data or direction register belongs to: registers 0 and 2 are port A,
registers 1 and 3 are port B. -/
def port_of_reg (addr : Nat) : Nat :=
  if addr = 0 ∨ addr = 2 then M6526_PORT_A else M6526_PORT_B

/-- The cached last output byte of a port: `pa` for port A, `pb` for port B. -/
def last_output (c : m6526_t) (port : Nat) : Nat :=
  if port = M6526_PORT_A then c.pa else c.pb

/-- The output byte `_m6526_out_a` / `_m6526_out_b` computes in state `c`. -/
def port_out_data (c : m6526_t) (port : Nat) : Nat :=
  if port = M6526_PORT_A then out_a_data c else out_b_data c

/-- The interrupt line mirrors the pending byte filtered by the mask:
`irq` holds exactly when `icr_data & icr_mask` is non-zero. -/
def irq_mirrors_pending (c : m6526_t) : Prop :=
  c.irq = true ↔ c.icr_data &&& c.icr_mask ≠ 0

instance (c : m6526_t) : Decidable (irq_mirrors_pending c) := by
  unfold irq_mirrors_pending; infer_instance

/-! ## Sequences of calls of the public interface -/

/-- One call of the public interface after `m6526_init`: `m6526_iorq` (with the byte `i`
the input callback returns if the request invokes it), `m6526_tick` or `m6526_reset`. -/
inductive m6526_call where
  | iorq (i : Nat) (pins : Nat)
  | tick (pins : Nat)
  | reset
  deriving DecidableEq, Repr

/-- The state after one call and the callbacks the call invoked; the body of
`m6526_reset` contains no callback invocation. -/
def m6526_apply (c : m6526_t) : m6526_call → m6526_t × List cb_call
  | m6526_call.iorq i pins => ((m6526_iorq c i pins).1, (m6526_iorq c i pins).2.2)
  | m6526_call.tick pins => ((m6526_tick c pins).1, (m6526_tick c pins).2.2)
  | m6526_call.reset => (m6526_reset c, [])

/-- The state after a sequence of calls, made in order. -/
def m6526_run (c : m6526_t) : List m6526_call → m6526_t
  | [] => c
  | e :: es => m6526_run (m6526_apply c e).1 es

/-- The timer output bits are 0 or 1, the pulse flags are 0 and the force-load bit of
the two stored control registers is 0. -/
def timer_bits_ok (c : m6526_t) : Prop :=
  c.ta_bit ≤ 1 ∧ c.tb_bit ≤ 1 ∧ c.ta_nul = 0 ∧ c.tb_nul = 0 ∧
  c.cra &&& M6526_CRA_FORCE_LOAD = 0 ∧ c.crb &&& M6526_CRB_FORCE_LOAD = 0

instance (c : m6526_t) : Decidable (timer_bits_ok c) := by
  unfold timer_bits_ok; infer_instance

end M6526

/-! # Keyboard matrix (`chips/kbd.h`)

The two lookup tables `key_masks[KBD_MAX_KEYS]` and `mod_masks[KBD_MAX_MOD_KEYS]` are read
and written by index only and are embedded as functions of the index.  The pressed-key
buffer `key_buffer[KBD_MAX_PRESSED_KEYS]` is traversed by loops and is embedded as a list
(of length 4 in every state built by `kbd_init`).  The C type `int` is `Int`; a failed
assertion is the result `none`. -/

namespace Kbd

def KBD_MAX_COLUMNS : Nat := 12
def KBD_MAX_LINES : Nat := 12
def KBD_MAX_MOD_KEYS : Nat := 4
def KBD_MAX_KEYS : Nat := 256
def KBD_MAX_PRESSED_KEYS : Nat := 4

/-- Conversion of a non-negative value to `uint16_t`. -/
def u16 (x : Nat) : Nat := x % 65536

/-- Conversion of a non-negative value to `uint32_t`. -/
def u32 (x : Nat) : Nat := x % 4294967296

/-- Conversion of an `int` to `uint32_t`. -/
def int_to_u32 (x : Int) : Nat := (x % 4294967296).toNat

/-- The descriptor `kbd_desc_t`. -/
structure kbd_desc_t where
  sticky_count : Int
  deriving DecidableEq, Repr

/-- A pressed-key slot `key_state_t`. -/
structure key_state_t where
  key : Int
  mask : Nat
  pressed_frame : Nat
  released_frame : Nat
  deriving DecidableEq, Repr

/-- The keyboard matrix state `kbd_t`. -/
structure kbd_t where
  frame_count : Nat
  sticky_count : Int
  active_columns : Nat
  active_lines : Nat
  key_masks : Nat → Nat
  mod_masks : Nat → Nat
  key_buffer : List key_state_t

/-- A slot of the key buffer after `memset`, also the value `kbd_update` stores in a slot
it empties. -/
def empty_slot : key_state_t :=
  { key := 0, mask := 0, pressed_frame := 0, released_frame := 0 }

/-- `kbd_init`. -/
def kbd_init (desc : kbd_desc_t) : kbd_t :=
  { frame_count := 1,
    sticky_count := if desc.sticky_count = 0 then 2 else desc.sticky_count,
    active_columns := 0,
    active_lines := 0,
    key_masks := fun _ => 0,
    mod_masks := fun _ => 0,
    key_buffer := List.replicate KBD_MAX_PRESSED_KEYS empty_slot }

/-- The body of the loop of `kbd_update` for one slot; `frame_count` is the counter after
the increment.  The sum `pressed_frame + sticky_count` is computed in `uint32_t`. -/
def update_slot (frame_count : Nat) (sticky_count : Int) (k : key_state_t) : key_state_t :=
  if k.released_frame ≠ 0 then
    if frame_count > u32 (k.pressed_frame + int_to_u32 sticky_count) then empty_slot
    else k
  else k

/-- `kbd_update`. -/
def kbd_update (kbd : kbd_t) : kbd_t :=
  let frame_count := u32 (kbd.frame_count + 1)
  { kbd with
    frame_count := frame_count,
    key_buffer := kbd.key_buffer.map (update_slot frame_count kbd.sticky_count) }

/-- `kbd_register_key`.  The shift `mod_mask << 24` is taken modulo `2^32`. -/
def kbd_register_key (kbd : kbd_t) (key column line mod_mask : Int) : Option kbd_t :=
  if (0 ≤ key ∧ key < 256) ∧ (0 ≤ column ∧ column < 12) ∧ (0 ≤ line ∧ line < 12) then
    let v := u32 (int_to_u32 (mod_mask * 2 ^ (KBD_MAX_COLUMNS + KBD_MAX_LINES)) |||
      (1 <<< (column.toNat + KBD_MAX_COLUMNS)) ||| (1 <<< line.toNat))
    some { kbd with key_masks := fun j => if j = key.toNat then v else kbd.key_masks j }
  else none

/-- The loop of `kbd_key_down`: the first slot with `mask == 0` receives the key, and the
loop returns. -/
def key_down_slots (key : Int) (mask frame_count : Nat) : List key_state_t → List key_state_t
  | [] => []
  | k :: ks =>
    if 0 = k.mask then
      { key := key, mask := mask, pressed_frame := frame_count, released_frame := 0 } :: ks
    else k :: key_down_slots key mask frame_count ks

/-- `kbd_key_down`. -/
def kbd_key_down (kbd : kbd_t) (key : Int) : Option kbd_t :=
  if 0 ≤ key ∧ key < 256 then
    some { kbd with
      key_buffer :=
        key_down_slots key (kbd.key_masks key.toNat) kbd.frame_count kbd.key_buffer }
  else none

/-- `kbd_key_up`. -/
def kbd_key_up (kbd : kbd_t) (key : Int) : Option kbd_t :=
  if 0 ≤ key ∧ key < 256 then
    some { kbd with
      key_buffer := kbd.key_buffer.map fun k =>
        if key = k.key then { k with released_frame := kbd.frame_count } else k }
  else none

/-- `_kbd_columns`. -/
def _kbd_columns (key_mask : Nat) : Nat :=
  u16 ((key_mask >>> KBD_MAX_COLUMNS) &&& ((1 <<< KBD_MAX_COLUMNS) - 1))

/-- `_kbd_lines`. -/
def _kbd_lines (key_mask : Nat) : Nat :=
  u16 (key_mask &&& ((1 <<< KBD_MAX_LINES) - 1))

/-- `_kbd_mod`: in C the operator `<<` binds tighter than `&`. -/
def _kbd_mod (key_mask : Nat) : Nat :=
  u32 (key_mask &&& (((1 <<< KBD_MAX_MOD_KEYS) - 1) <<< (KBD_MAX_COLUMNS + KBD_MAX_LINES)))

/-- The body of the inner loop of `kbd_test_lines` for one modifier index. -/
def test_lines_mod (kbd : kbd_t) (column_mask key_mod_mask line_bits mod_index : Nat) : Nat :=
  let mod_mask := kbd.mod_masks mod_index
  if mod_mask &&& key_mod_mask ≠ 0 then
    let mod_col_mask := _kbd_columns mod_mask
    if mod_col_mask &&& column_mask = mod_col_mask then
      u16 (line_bits ||| _kbd_lines mod_mask)
    else line_bits
  else line_bits

/-- The body of the outer loop of `kbd_test_lines` for one slot. -/
def test_lines_slot (kbd : kbd_t) (column_mask line_bits : Nat) (k : key_state_t) : Nat :=
  let key_mask := k.mask
  if key_mask ≠ 0 then
    let key_col_mask := _kbd_columns key_mask
    let line_bits :=
      if key_col_mask &&& column_mask = key_col_mask then
        u16 (line_bits ||| _kbd_lines key_mask)
      else line_bits
    let key_mod_mask := _kbd_mod key_mask
    if key_mod_mask ≠ 0 then
      (List.range KBD_MAX_MOD_KEYS).foldl (test_lines_mod kbd column_mask key_mod_mask)
        line_bits
    else line_bits
  else line_bits

/-- `kbd_test_lines`. -/
def kbd_test_lines (kbd : kbd_t) (column_mask : Nat) : Nat :=
  kbd.key_buffer.foldl (test_lines_slot kbd column_mask) 0

/-- One call of the keyboard interface that touches the key buffer. -/
inductive kbd_call where
  | update
  | key_down (key : Int)
  | key_up (key : Int)
  deriving DecidableEq, Repr

/-- The effect of one call. -/
def kbd_apply (kbd : kbd_t) : kbd_call → Option kbd_t
  | kbd_call.update => some (kbd_update kbd)
  | kbd_call.key_down key => kbd_key_down kbd key
  | kbd_call.key_up key => kbd_key_up kbd key

/-- The effect of a sequence of calls, made in order. -/
def kbd_run (kbd : kbd_t) : List kbd_call → Option kbd_t
  | [] => some kbd
  | e :: es => (kbd_apply kbd e).bind fun k => kbd_run k es

/-- The number of `kbd_update` calls in a sequence of calls. -/
def updates : List kbd_call → Nat
  | [] => 0
  | kbd_call.update :: es => updates es + 1
  | _ :: es => updates es

/-- The key argument of every call of the sequence passes the assertion
`(key >= 0) && (key < KBD_MAX_KEYS)`. -/
def keys_valid : List kbd_call → Prop
  | [] => True
  | kbd_call.update :: es => keys_valid es
  | kbd_call.key_down key :: es => (0 ≤ key ∧ key < 256) ∧ keys_valid es
  | kbd_call.key_up key :: es => (0 ≤ key ∧ key < 256) ∧ keys_valid es

end Kbd

/-! # Square-wave beeper (`chips/beeper.h`)

The C type `int` is `Int`, with every arithmetic result checked against the range of a
32-bit `int`: a result outside it (undefined behaviour in C) ends the call with the error
`overflow`.  The three `float` fields play no part in the control flow; they are values of
an arbitrary carrier `F` with the operations used by the code.  The `while` loop of
`beeper_tick` runs on fuel, one unit per execution of the loop body. -/

namespace Beeper

def BEEPER_SUPER_SAMPLES : Int := 4
def BEEPER_PRECISION_BOOST : Int := 16

/-- The value is representable in a 32-bit `int`. -/
def int_ok (x : Int) : Prop := -2147483648 ≤ x ∧ x ≤ 2147483647

instance (x : Int) : Decidable (int_ok x) := by
  unfold int_ok; infer_instance

/-- The `float` operations used by the beeper: `+`, division by an `int` converted to
`float`, and the constant `0.0f`. -/
structure float_ops (F : Type) where
  add : F → F → F
  div_int : F → Int → F
  zero : F

/-- The beeper state `beeper_t`. -/
structure beeper_t (F : Type) where
  state : Bool
  period : Int
  tick_counter : Int
  super_sample_counter : Int
  mag : F
  acc : F
  sample : F

/-- The ways a modelled call ends without a result. -/
inductive tick_error where
  | overflow
  | out_of_fuel
  deriving DecidableEq, Repr

/-- `beeper_init`: `none` when the assertion `(tick_hz > 0) && (sound_hz > 0)` fails or a
product overflows; the quotient of the two positive products is the C quotient. -/
def beeper_init {F : Type} (ops : float_ops F) (tick_hz sound_hz : Int) (magnitude : F) :
    Option (beeper_t F) :=
  if tick_hz > 0 ∧ sound_hz > 0 ∧ int_ok (tick_hz * BEEPER_PRECISION_BOOST) ∧
      int_ok (sound_hz * BEEPER_SUPER_SAMPLES) then
    let period := (tick_hz * BEEPER_PRECISION_BOOST) / (sound_hz * BEEPER_SUPER_SAMPLES)
    some
      { state := false,
        period := period,
        tick_counter := period,
        super_sample_counter := BEEPER_SUPER_SAMPLES,
        mag := magnitude,
        acc := ops.zero,
        sample := ops.zero }
  else none

/-- `beeper_reset`. -/
def beeper_reset {F : Type} (b : beeper_t F) : beeper_t F :=
  { b with
    state := false,
    tick_counter := b.period,
    super_sample_counter := BEEPER_SUPER_SAMPLES }

/-- The `while` loop of `beeper_tick`.  The result is the final state, the value
returned by `beeper_tick`, and the number of executions of the loop body; `n` counts the
executions made so far. -/
def beeper_loop {F : Type} (ops : float_ops F) :
    Nat → beeper_t F → Nat → Except tick_error (beeper_t F × Bool × Nat)
  | 0, b, n =>
    if b.tick_counter ≤ 0 then Except.error tick_error.out_of_fuel
    else Except.ok (b, false, n)
  | fuel + 1, b, n =>
    if b.tick_counter ≤ 0 then
      if int_ok (b.tick_counter + b.period) then
        let b1 := { b with tick_counter := b.tick_counter + b.period }
        let b2 := if b1.state = true then { b1 with acc := ops.add b1.acc b1.mag } else b1
        if int_ok (b2.super_sample_counter - 1) then
          if b2.super_sample_counter - 1 = (0 : Int) then
            Except.ok
              ({ b2 with
                  super_sample_counter := BEEPER_SUPER_SAMPLES,
                  sample := ops.div_int b2.acc BEEPER_SUPER_SAMPLES,
                  acc := ops.zero },
                true, n + 1)
          else
            beeper_loop ops fuel
              { b2 with super_sample_counter := b2.super_sample_counter - 1 } (n + 1)
        else Except.error tick_error.overflow
      else Except.error tick_error.overflow
    else Except.ok (b, false, n)

/-- `beeper_tick`. -/
def beeper_tick {F : Type} (ops : float_ops F) (fuel : Nat) (b : beeper_t F)
    (num_ticks : Int) : Except tick_error (beeper_t F × Bool × Nat) :=
  if int_ok (num_ticks * BEEPER_PRECISION_BOOST) ∧
      int_ok (b.tick_counter - num_ticks * BEEPER_PRECISION_BOOST) then
    beeper_loop ops fuel
      { b with tick_counter := b.tick_counter - num_ticks * BEEPER_PRECISION_BOOST } 0
  else Except.error tick_error.overflow

end Beeper

namespace M6526

/-! ## Bit-level facts about the machine arithmetic -/

theorem u8_lt (x : Nat) : u8 x < 256 := Nat.mod_lt _ (by norm_num)

theorem u8_of_lt (x : Nat) (h : x < 256) : u8 x = x := Nat.mod_eq_of_lt h

theorem u16_of_lt (x : Nat) (h : x < 65536) : u16 x = x := Nat.mod_eq_of_lt h

theorem testBit_u8 (x k : Nat) : (u8 x).testBit k = (decide (k < 8) && x.testBit k) := by
  unfold u8
  exact Nat.testBit_mod_two_pow x 8 k

theorem testBit_u16 (x k : Nat) : (u16 x).testBit k = (decide (k < 16) && x.testBit k) := by
  unfold u16
  exact Nat.testBit_mod_two_pow x 16 k

theorem testBit_bnot (x k : Nat) (hk : k < 32) : (bnot x).testBit k = !x.testBit k := by
  unfold bnot
  have h : (0xFFFFFFFF : Nat) = 2 ^ 32 - 1 := by norm_num
  rw [Nat.testBit_xor, h, Nat.testBit_two_pow_sub_one]
  simp [hk]

theorem testBit_byte_high (x k : Nat) (hx : x < 256) (hk : 8 ≤ k) : x.testBit k = false := by
  apply Nat.testBit_lt_two_pow
  calc x < 2 ^ 8 := by simpa using hx
    _ ≤ 2 ^ k := Nat.pow_le_pow_right (by norm_num) hk

theorem testBit_one (j : Nat) : Nat.testBit 1 j = decide (j = 0) := by
  have h := @Nat.testBit_two_pow 0 j
  simp only [pow_zero] at h
  rw [h]
  by_cases hj : j = 0 <;> simp [hj, eq_comm]

theorem testBit_FF (k : Nat) : Nat.testBit 0xFF k = decide (k < 8) := by
  have h : (0xFF : Nat) = 2 ^ 8 - 1 := by norm_num
  rw [h, Nat.testBit_two_pow_sub_one]

theorem testBit_FF00 (k : Nat) :
    Nat.testBit 0xFF00 k = (decide (8 ≤ k) && decide (k < 16)) := by
  have h : (0xFF00 : Nat) = 0xFF <<< 8 := by decide
  rw [h, Nat.testBit_shiftLeft, testBit_FF]
  by_cases h8 : 8 ≤ k <;> by_cases h16 : k < 16 <;> simp [h8, h16] <;> omega

/-- Inside `&` with a byte, `~x` acts as the 8-bit complement of `x`. -/
theorem and_bnot_byte (a x : Nat) (ha : a < 256) : a &&& bnot x = a &&& (0xFF ^^^ x) := by
  apply Nat.eq_of_testBit_eq
  intro k
  by_cases hk : k < 8
  · rw [Nat.testBit_and, Nat.testBit_and, testBit_bnot x k (by omega), Nat.testBit_xor,
      testBit_FF]
    simp [hk]
  · simp [testBit_byte_high a k ha (by omega)]

theorem merge_bit_testBit (data n b k : Nat) (hb : b ≤ 1) (hn : n < 8) (hk : k < 8) :
    (merge_bit data n b).testBit k = if k = n then decide (b = 1) else data.testBit k := by
  unfold merge_bit
  rw [testBit_u8, Nat.testBit_or, Nat.testBit_and, testBit_bnot _ _ (by omega),
    Nat.testBit_shiftLeft, Nat.testBit_shiftLeft]
  rw [testBit_one]
  interval_cases b <;> interval_cases n <;> interval_cases k <;> simp [testBit_one]

set_option maxRecDepth 100000 in
theorem u8_and_bnot16 : ∀ d < 256, u8 (d &&& bnot 16) = d &&& 0xEF := by decide

/-- Low byte of a counter after the low latch byte was stored into it. -/
theorem lo_byte_read_back (x d : Nat) (hd : d < 256) :
    u8 (u16 ((x &&& 0xFF00) ||| d) &&& 0xFF) = d := by
  apply Nat.eq_of_testBit_eq
  intro k
  rw [testBit_u8, Nat.testBit_and, testBit_u16, Nat.testBit_or, Nat.testBit_and, testBit_FF,
    testBit_FF00]
  by_cases hk : k < 8
  · have h8 : ¬ 8 ≤ k := by omega
    have h16 : k < 16 := by omega
    simp [hk, h8, h16]
  · simp [hk, testBit_byte_high d k hd (by omega)]

/-- High byte of a counter after the high latch byte was stored into it. -/
theorem hi_byte_read_back (x d : Nat) (hd : d < 256) :
    u8 (u16 ((x &&& 0xFF) ||| (d <<< 8)) >>> 8) = d := by
  apply Nat.eq_of_testBit_eq
  intro k
  rw [testBit_u8, Nat.testBit_shiftRight, testBit_u16, Nat.testBit_or, Nat.testBit_and,
    testBit_FF, Nat.testBit_shiftLeft]
  by_cases hk : k < 8
  · have h8 : ¬ 8 + k < 8 := by omega
    have h16 : 8 + k < 16 := by omega
    simp [hk, h8, h16]
  · simp [hk, testBit_byte_high d k hd (by omega)]

theorem hi_latch_lt (x d : Nat) (hd : d < 256) : (x &&& 0xFF) ||| (d <<< 8) < 65536 := by
  have h1 : x &&& 0xFF < 2 ^ 16 :=
    lt_of_le_of_lt Nat.and_le_right (by norm_num)
  have h2 : d <<< 8 < 2 ^ 16 := by
    rw [Nat.shiftLeft_eq]; omega
  simpa using Nat.or_lt_two_pow h1 h2

/-! ## Frame lemmas for the output routines -/

theorem out_a_fst (c : m6526_t) : (_m6526_out_a c).1 = { c with pa := out_a_data c } := by
  unfold _m6526_out_a
  by_cases h : out_a_data c = c.pa
  · simp [h]
  · simp [h]

theorem out_b_fst (c : m6526_t) : (_m6526_out_b c).1 = { c with pb := out_b_data c } := by
  unfold _m6526_out_b
  by_cases h : out_b_data c = c.pb
  · simp [h]
  · simp [h]

theorem set_cra_fst (c : m6526_t) (data : Nat) :
    (_m6526_set_cra c data).1.ta_counter
        = (if data &&& 0x10 ≠ 0 then c.ta_latch else c.ta_counter) ∧
    (_m6526_set_cra c data).1.cra
        = (if data &&& 0x10 ≠ 0 then u8 (data &&& bnot 0x10) else data) ∧
    (_m6526_set_cra c data).1.ta_latch = c.ta_latch ∧
    (_m6526_set_cra c data).1.ta_bit
        = (if c.cra &&& 1 = 0 ∧ data &&& 1 ≠ 0 then 1 else c.ta_bit) := by
  unfold _m6526_set_cra
  simp only [M6526_CRA_START, M6526_CRA_FORCE_LOAD, Nat.shiftLeft_zero, Nat.reduceShiftLeft]
  split_ifs <;> simp_all [out_b_fst]

theorem set_crb_fst (c : m6526_t) (data : Nat) :
    (_m6526_set_crb c data).1.tb_counter
        = (if data &&& 0x10 ≠ 0 then c.tb_latch else c.tb_counter) ∧
    (_m6526_set_crb c data).1.crb
        = (if data &&& 0x10 ≠ 0 then u8 (data &&& bnot 0x10) else data) ∧
    (_m6526_set_crb c data).1.tb_latch = c.tb_latch ∧
    (_m6526_set_crb c data).1.tb_bit
        = (if c.crb &&& 1 = 0 ∧ data &&& 1 ≠ 0 then 1 else c.tb_bit) := by
  unfold _m6526_set_crb
  simp only [M6526_CRB_START, M6526_CRB_FORCE_LOAD, Nat.shiftLeft_zero, Nat.reduceShiftLeft]
  split_ifs <;> simp_all [out_b_fst]

theorem write_talo_counter (c : m6526_t) (d : Nat) (h : c.cra &&& M6526_CRA_START = 0) :
    (_m6526_write c 4 d).1.ta_counter = u16 ((c.ta_counter &&& 0xFF00) ||| d) := by
  simp only [_m6526_write, h, if_true]

theorem write_tblo_counter (c : m6526_t) (d : Nat) (h : c.crb &&& M6526_CRB_START = 0) :
    (_m6526_write c 6 d).1.tb_counter = u16 ((c.tb_counter &&& 0xFF00) ||| d) := by
  simp only [_m6526_write, h, if_true]

/-- Effect of a write to register 5 on timer A and control register A. -/
theorem write_tahi_fields (c : m6526_t) (d : Nat) :
    (_m6526_write c 5 d).1.ta_latch = u16 ((c.ta_latch &&& 0xFF) ||| (d <<< 8)) ∧
    (_m6526_write c 5 d).1.ta_counter =
      (if c.cra &&& M6526_CRA_RUNMODE = M6526_CRA_RUNMODE_ONESHOT then
        u16 ((c.ta_latch &&& 0xFF) ||| (d <<< 8))
      else if c.cra &&& M6526_CRA_START = 0 then
        u16 ((c.ta_counter &&& 0xFF) ||| (d <<< 8))
      else c.ta_counter) ∧
    (_m6526_write c 5 d).1.cra =
      (if c.cra &&& M6526_CRA_RUNMODE = M6526_CRA_RUNMODE_ONESHOT then
        (if u8 (c.cra ||| M6526_CRA_START) &&& 0x10 ≠ 0 then
          u8 (u8 (c.cra ||| M6526_CRA_START) &&& bnot 0x10)
        else u8 (c.cra ||| M6526_CRA_START))
      else c.cra) := by
  simp only [_m6526_write]
  by_cases h3 : c.cra &&& M6526_CRA_RUNMODE = M6526_CRA_RUNMODE_ONESHOT
  · by_cases h0 : c.cra &&& M6526_CRA_START = 0 <;>
      by_cases h4 : u8 (c.cra ||| M6526_CRA_START) &&& 0x10 = 0 <;>
      simp [h3, h0, h4, set_cra_fst]
  · by_cases h0 : c.cra &&& M6526_CRA_START = 0 <;> simp [h3, h0]

/-- Effect of a write to register 7 on timer B and control register B. -/
theorem write_tbhi_fields (c : m6526_t) (d : Nat) :
    (_m6526_write c 7 d).1.tb_latch = u16 ((c.tb_latch &&& 0xFF) ||| (d <<< 8)) ∧
    (_m6526_write c 7 d).1.tb_counter =
      (if c.crb &&& M6526_CRB_RUNMODE = M6526_CRB_RUNMODE_ONESHOT then
        u16 ((c.tb_latch &&& 0xFF) ||| (d <<< 8))
      else if c.crb &&& M6526_CRB_START = 0 then
        u16 ((c.tb_counter &&& 0xFF) ||| (d <<< 8))
      else c.tb_counter) ∧
    (_m6526_write c 7 d).1.crb =
      (if c.crb &&& M6526_CRB_RUNMODE = M6526_CRB_RUNMODE_ONESHOT then
        (if u8 (c.crb ||| M6526_CRB_START) &&& 0x10 ≠ 0 then
          u8 (u8 (c.crb ||| M6526_CRB_START) &&& bnot 0x10)
        else u8 (c.crb ||| M6526_CRB_START))
      else c.crb) := by
  simp only [_m6526_write]
  by_cases h3 : c.crb &&& M6526_CRB_RUNMODE = M6526_CRB_RUNMODE_ONESHOT
  · by_cases h0 : c.crb &&& M6526_CRB_START = 0 <;>
      by_cases h4 : u8 (c.crb ||| M6526_CRB_START) &&& 0x10 = 0 <;>
      simp [h3, h0, h4, set_crb_fst]
  · by_cases h0 : c.crb &&& M6526_CRB_START = 0 <;> simp [h3, h0]

/-! ## Interrupt control register -/

/-- C1: for every chip state, a read of register 13 returns the pending byte `icr_data`,
leaves `icr_data = 0` and `irq = false` with every other field unchanged (and calls no
callback); a second immediate read of register 13 returns 0 with `irq` still false. -/
theorem read_icr_returns_pending_and_clears (c : m6526_t) (i j : Nat) :
    _m6526_read c i 13 = ({ c with irq := false, icr_data := 0 }, c.icr_data, []) ∧
    (_m6526_read (_m6526_read c i 13).1 j 13).2.1 = 0 ∧
    (_m6526_read (_m6526_read c i 13).1 j 13).1.irq = false := by
  simp [_m6526_read]

/-- Effect of a write to register 13: only the mask changes, by `|= data` or `&= ~data`. -/
theorem write_icr_eq (c : m6526_t) (d : Nat) :
    _m6526_write c 13 d =
      ({ c with icr_mask :=
          if d &&& 0x80 ≠ 0 then u8 (c.icr_mask ||| d) else u8 (c.icr_mask &&& bnot d) }, []) := by
  simp only [_m6526_write]
  by_cases h : d &&& 0x80 = 0 <;> simp [h]

/-- C2 (the code at the failing input): on the power-on state, whose mask is 0, a write of
0x81 to register 13 leaves the mask equal to 0x81, with bit 7 set, where
`old_mask | (0x81 & 0x7F)` is 0x01. -/
theorem write_icr_0x81_stores_bit7 :
    ∃ c0, m6526_init 1 2 = some c0 ∧ c0.icr_mask = 0 ∧
      (_m6526_write c0 13 0x81).1.icr_mask = 0x81 ∧
      (c0.icr_mask ||| (0x81 &&& 0x7F)) = 0x01 ∧
      (_m6526_write c0 13 0x81).1.icr_mask.testBit 7 = true :=
  ⟨_, rfl, by decide, by decide, by decide, by decide⟩

/-! ## Timers -/

/-- C3: with timer A stopped (CRA bit 0 clear), writing a byte `d` to register 4 and then
reading register 4 returns `d`, and writing `d` to register 5 and then reading register 5
returns `d`; likewise for timer B with CRB bit 0 and registers 6 and 7. -/
theorem stopped_timer_write_reads_back (c : m6526_t) (d i : Nat) (hd : d < 256) :
    (c.cra &&& M6526_CRA_START = 0 →
      (_m6526_read (_m6526_write c 4 d).1 i 4).2.1 = d ∧
      (_m6526_read (_m6526_write c 5 d).1 i 5).2.1 = d) ∧
    (c.crb &&& M6526_CRB_START = 0 →
      (_m6526_read (_m6526_write c 6 d).1 i 6).2.1 = d ∧
      (_m6526_read (_m6526_write c 7 d).1 i 7).2.1 = d) := by
  refine ⟨fun h => ⟨?_, ?_⟩, fun h => ⟨?_, ?_⟩⟩
  · show u8 ((_m6526_write c 4 d).1.ta_counter &&& 0xFF) = d
    rw [write_talo_counter c d h]
    exact lo_byte_read_back _ d hd
  · show u8 ((_m6526_write c 5 d).1.ta_counter >>> 8) = d
    rw [(write_tahi_fields c d).2.1]
    split_ifs
    · exact hi_byte_read_back _ d hd
    · exact hi_byte_read_back _ d hd
  · show u8 ((_m6526_write c 6 d).1.tb_counter &&& 0xFF) = d
    rw [write_tblo_counter c d h]
    exact lo_byte_read_back _ d hd
  · show u8 ((_m6526_write c 7 d).1.tb_counter >>> 8) = d
    rw [(write_tbhi_fields c d).2.1]
    split_ifs
    · exact hi_byte_read_back _ d hd
    · exact hi_byte_read_back _ d hd

/-- C3 at the power-on state with `d = 0x34`. -/
theorem stopped_timer_write_reads_back_witness :
    (0x34 < 256) ∧
    (m6526_reset zeroed).cra &&& M6526_CRA_START = 0 ∧
    (m6526_reset zeroed).crb &&& M6526_CRB_START = 0 ∧
    ((_m6526_read (_m6526_write (m6526_reset zeroed) 4 0x34).1 0 4).2.1 = 0x34 ∧
      (_m6526_read (_m6526_write (m6526_reset zeroed) 5 0x34).1 0 5).2.1 = 0x34) ∧
    ((_m6526_read (_m6526_write (m6526_reset zeroed) 6 0x34).1 0 6).2.1 = 0x34 ∧
      (_m6526_read (_m6526_write (m6526_reset zeroed) 7 0x34).1 0 7).2.1 = 0x34) :=
  ⟨by decide, by decide, by decide,
    (stopped_timer_write_reads_back (m6526_reset zeroed) 0x34 0 (by decide)).1 (by decide),
    (stopped_timer_write_reads_back (m6526_reset zeroed) 0x34 0 (by decide)).2 (by decide)⟩

/-- C4: writing a byte `d` with bit 4 (force-load) set to control register 14 makes
`ta_counter` equal to `ta_latch`, and a following read of register 14 returns `d & 0xEF`;
with bit 4 clear the write leaves `ta_counter` unchanged and the read returns `d`.  The
same holds for register 15 with `tb_counter` and `tb_latch`. -/
theorem force_load_strobe (c : m6526_t) (d i : Nat) (hd : d < 256) :
    (d &&& M6526_CRA_FORCE_LOAD ≠ 0 →
      (_m6526_write c 14 d).1.ta_counter = c.ta_latch ∧
      (_m6526_write c 14 d).1.ta_counter = (_m6526_write c 14 d).1.ta_latch ∧
      (_m6526_read (_m6526_write c 14 d).1 i 14).2.1 = d &&& 0xEF) ∧
    (d &&& M6526_CRA_FORCE_LOAD = 0 →
      (_m6526_write c 14 d).1.ta_counter = c.ta_counter ∧
      (_m6526_read (_m6526_write c 14 d).1 i 14).2.1 = d) ∧
    (d &&& M6526_CRB_FORCE_LOAD ≠ 0 →
      (_m6526_write c 15 d).1.tb_counter = c.tb_latch ∧
      (_m6526_write c 15 d).1.tb_counter = (_m6526_write c 15 d).1.tb_latch ∧
      (_m6526_read (_m6526_write c 15 d).1 i 15).2.1 = d &&& 0xEF) ∧
    (d &&& M6526_CRB_FORCE_LOAD = 0 →
      (_m6526_write c 15 d).1.tb_counter = c.tb_counter ∧
      (_m6526_read (_m6526_write c 15 d).1 i 15).2.1 = d) := by
  have hA := set_cra_fst c d
  have hB := set_crb_fst c d
  have hw14 : _m6526_write c 14 d = _m6526_set_cra c d := rfl
  have hw15 : _m6526_write c 15 d = _m6526_set_crb c d := rfl
  have hr14 : ∀ s : m6526_t, (_m6526_read s i 14).2.1 = s.cra := fun _ => rfl
  have hr15 : ∀ s : m6526_t, (_m6526_read s i 15).2.1 = s.crb := fun _ => rfl
  have hm := u8_and_bnot16 d hd
  simp only [M6526_CRA_FORCE_LOAD, M6526_CRB_FORCE_LOAD, Nat.reduceShiftLeft, hw14, hw15,
    hr14, hr15]
  refine ⟨fun h => ?_, fun h => ?_, fun h => ?_, fun h => ?_⟩
  · rw [hA.1, hA.2.1, hA.2.2.1, if_pos h, if_pos h]
    exact ⟨rfl, rfl, hm⟩
  · have h' : ¬ (d &&& 16 ≠ 0) := fun hn => hn h
    rw [hA.1, hA.2.1, if_neg h', if_neg h']
    exact ⟨rfl, rfl⟩
  · rw [hB.1, hB.2.1, hB.2.2.1, if_pos h, if_pos h]
    exact ⟨rfl, rfl, hm⟩
  · have h' : ¬ (d &&& 16 ≠ 0) := fun hn => hn h
    rw [hB.1, hB.2.1, if_neg h', if_neg h']
    exact ⟨rfl, rfl⟩

/-- C4 at a state with latches 0x1234 / 0x5678 and counters 0, with `d = 0x11` on the
force-load side and `d = 0x01` on the other side. -/
theorem force_load_strobe_witness :
    (0x11 &&& M6526_CRA_FORCE_LOAD ≠ 0 ∧ 0x01 &&& M6526_CRA_FORCE_LOAD = 0 ∧
      0x11 &&& M6526_CRB_FORCE_LOAD ≠ 0 ∧ 0x01 &&& M6526_CRB_FORCE_LOAD = 0) ∧
    ((_m6526_write { zeroed with ta_latch := 0x1234, tb_latch := 0x5678 } 14 0x11).1.ta_counter
        = 0x1234 ∧
      (_m6526_read (_m6526_write { zeroed with ta_latch := 0x1234, tb_latch := 0x5678 }
        14 0x11).1 0 14).2.1 = 0x01) ∧
    ((_m6526_write { zeroed with ta_latch := 0x1234, tb_latch := 0x5678 } 14 0x01).1.ta_counter
        = 0 ∧
      (_m6526_read (_m6526_write { zeroed with ta_latch := 0x1234, tb_latch := 0x5678 }
        14 0x01).1 0 14).2.1 = 0x01) ∧
    ((_m6526_write { zeroed with ta_latch := 0x1234, tb_latch := 0x5678 } 15 0x11).1.tb_counter
        = 0x5678 ∧
      (_m6526_read (_m6526_write { zeroed with ta_latch := 0x1234, tb_latch := 0x5678 }
        15 0x11).1 0 15).2.1 = 0x01) ∧
    ((_m6526_write { zeroed with ta_latch := 0x1234, tb_latch := 0x5678 } 15 0x01).1.tb_counter
        = 0 ∧
      (_m6526_read (_m6526_write { zeroed with ta_latch := 0x1234, tb_latch := 0x5678 }
        15 0x01).1 0 15).2.1 = 0x01) :=
  ⟨by decide,
    have h := (force_load_strobe { zeroed with ta_latch := 0x1234, tb_latch := 0x5678 }
      0x11 0 (by decide)).1 (by decide)
    ⟨h.1, h.2.2⟩,
    (force_load_strobe { zeroed with ta_latch := 0x1234, tb_latch := 0x5678 }
      0x01 0 (by decide)).2.1 (by decide),
    have h := (force_load_strobe { zeroed with ta_latch := 0x1234, tb_latch := 0x5678 }
      0x11 0 (by decide)).2.2.1 (by decide)
    ⟨h.1, h.2.2⟩,
    (force_load_strobe { zeroed with ta_latch := 0x1234, tb_latch := 0x5678 }
      0x01 0 (by decide)).2.2.2 (by decide)⟩

/-- The start bit survives the store of `cra | START` into the control register. -/
theorem start_bit_set (x : Nat) :
    (if u8 (x ||| 1) &&& 0x10 ≠ 0 then u8 (u8 (x ||| 1) &&& bnot 0x10) else u8 (x ||| 1)) &&& 1
      = 1 := by
  have h1 : u8 (x ||| 1) % 2 = 1 := by
    have : (x ||| 1) % 2 = 1 := by simp
    unfold u8; omega
  have h2 : bnot 0x10 % 2 = 1 := by decide
  have h3 : u8 (u8 (x ||| 1) &&& bnot 0x10) % 2 = 1 := by
    have : (u8 (x ||| 1) &&& bnot 0x10) % 2 = 1 := by
      rw [Nat.and_mod_two_eq_one]; exact ⟨h1, h2⟩
    unfold u8 at this ⊢; omega
  rw [Nat.and_one_is_mod]
  split_ifs
  · exact h3
  · exact h1

/-- C5: with the run-mode bit (bit 3, one-shot) of CRA set, writing a byte `d` to register 5
leaves `ta_latch = (old ta_latch & 0x00FF) | (d << 8)`, `ta_counter` equal to the new
`ta_latch`, and the start bit (CRA bit 0) set; with bit 3 clear the write does not change
CRA.  The same holds for timer B with register 7 and CRB. -/
theorem oneshot_latch_high_write_starts (c : m6526_t) (d : Nat) (hd : d < 256) :
    (c.cra &&& M6526_CRA_RUNMODE = M6526_CRA_RUNMODE_ONESHOT →
      (_m6526_write c 5 d).1.ta_latch = (c.ta_latch &&& 0x00FF) ||| (d <<< 8) ∧
      (_m6526_write c 5 d).1.ta_counter = (_m6526_write c 5 d).1.ta_latch ∧
      (_m6526_write c 5 d).1.cra &&& M6526_CRA_START = M6526_CRA_START) ∧
    (c.cra &&& M6526_CRA_RUNMODE = 0 → (_m6526_write c 5 d).1.cra = c.cra) ∧
    (c.crb &&& M6526_CRB_RUNMODE = M6526_CRB_RUNMODE_ONESHOT →
      (_m6526_write c 7 d).1.tb_latch = (c.tb_latch &&& 0x00FF) ||| (d <<< 8) ∧
      (_m6526_write c 7 d).1.tb_counter = (_m6526_write c 7 d).1.tb_latch ∧
      (_m6526_write c 7 d).1.crb &&& M6526_CRB_START = M6526_CRB_START) ∧
    (c.crb &&& M6526_CRB_RUNMODE = 0 → (_m6526_write c 7 d).1.crb = c.crb) := by
  obtain ⟨hAl, hAc, hAr⟩ := write_tahi_fields c d
  obtain ⟨hBl, hBc, hBr⟩ := write_tbhi_fields c d
  refine ⟨fun h => ?_, fun h => ?_, fun h => ?_, fun h => ?_⟩
  · rw [hAl, hAc, hAr, if_pos h, if_pos h, u16_of_lt _ (hi_latch_lt _ d hd)]
    exact ⟨rfl, rfl, start_bit_set c.cra⟩
  · have h' : ¬ (c.cra &&& M6526_CRA_RUNMODE = M6526_CRA_RUNMODE_ONESHOT) := by
      rw [h]; decide
    rw [hAr, if_neg h']
  · rw [hBl, hBc, hBr, if_pos h, if_pos h, u16_of_lt _ (hi_latch_lt _ d hd)]
    exact ⟨rfl, rfl, start_bit_set c.crb⟩
  · have h' : ¬ (c.crb &&& M6526_CRB_RUNMODE = M6526_CRB_RUNMODE_ONESHOT) := by
      rw [h]; decide
    rw [hBr, if_neg h']

/-- C5 at a stopped one-shot state (`cra = crb = 0x08`, latches 0xFFFF) with `d = 0x12`, and
at the continuous power-on state for the unchanged control registers. -/
theorem oneshot_latch_high_write_starts_witness :
    (0x12 < 256) ∧
    ((_m6526_write { m6526_reset zeroed with cra := 8, crb := 8 } 5 0x12).1.ta_latch = 0x12FF ∧
      (_m6526_write { m6526_reset zeroed with cra := 8, crb := 8 } 5 0x12).1.ta_counter = 0x12FF ∧
      (_m6526_write { m6526_reset zeroed with cra := 8, crb := 8 } 5 0x12).1.cra = 9) ∧
    ((_m6526_write { m6526_reset zeroed with cra := 8, crb := 8 } 7 0x12).1.tb_latch = 0x12FF ∧
      (_m6526_write { m6526_reset zeroed with cra := 8, crb := 8 } 7 0x12).1.tb_counter = 0x12FF ∧
      (_m6526_write { m6526_reset zeroed with cra := 8, crb := 8 } 7 0x12).1.crb = 9) ∧
    (_m6526_write (m6526_reset zeroed) 5 0x12).1.cra = (m6526_reset zeroed).cra ∧
    (_m6526_write (m6526_reset zeroed) 7 0x12).1.crb = (m6526_reset zeroed).crb :=
  ⟨by decide,
    have h := (oneshot_latch_high_write_starts { m6526_reset zeroed with cra := 8, crb := 8 }
      0x12 (by decide)).1 (by decide)
    ⟨h.1, h.2.1.trans h.1, by decide⟩,
    have h := (oneshot_latch_high_write_starts { m6526_reset zeroed with cra := 8, crb := 8 }
      0x12 (by decide)).2.2.1 (by decide)
    ⟨h.1, h.2.1.trans h.1, by decide⟩,
    (oneshot_latch_high_write_starts (m6526_reset zeroed) 0x12 (by decide)).2.1 (by decide),
    (oneshot_latch_high_write_starts (m6526_reset zeroed) 0x12 (by decide)).2.2.2 (by decide)⟩

theorem tick_n_eq (n : Nat) (c : m6526_t) (pins : Nat) : tick_n n c pins = (c, []) := by
  induction n with
  | zero => rfl
  | succ n ih => simp [tick_n, m6526_tick, ih]

/-- C6 (counterexample): from `m6526_init`, after writing 0x10 to register 4, 0x00 to
register 5 and 0x01 to register 14, sixteen calls of `m6526_tick` leave the pending byte
`icr_data` equal to 0, so its timer-A bit is clear: no underflow has been signalled. -/
theorem timer_a_run_signals_nothing :
    ∃ c0, m6526_init 1 2 = some c0 ∧
      (tick_n 0x10
        (_m6526_write (_m6526_write (_m6526_write c0 4 0x10).1 5 0x00).1 14 0x01).1
        0).1.icr_data = 0 ∧
      ¬ ((tick_n 0x10
        (_m6526_write (_m6526_write (_m6526_write c0 4 0x10).1 5 0x00).1 14 0x01).1
        0).1.icr_data.testBit 0 = true) :=
  ⟨_, rfl, by decide, by decide⟩

/-- C6 (amended): from `m6526_init`, after writing 0x10 to register 4, 0x00 to register 5
and 0x01 to register 14, sixteen calls of `m6526_tick` (any pins) signal no underflow:
`icr_data = 0` and `irq = false`; the timer is started (`cra = 1`) and `ta_counter` and
`ta_latch` hold 0x0010, the value the two latch writes stored while the timer was stopped;
the ticks call no callback. -/
theorem timer_a_run_keeps_loaded_counter (in_cb out_cb pins : Nat) (c0 : m6526_t)
    (h0 : m6526_init in_cb out_cb = some c0) :
    (tick_n 0x10
      (_m6526_write (_m6526_write (_m6526_write c0 4 0x10).1 5 0x00).1 14 0x01).1
      pins).1.icr_data = 0 ∧
    (tick_n 0x10
      (_m6526_write (_m6526_write (_m6526_write c0 4 0x10).1 5 0x00).1 14 0x01).1
      pins).1.irq = false ∧
    (tick_n 0x10
      (_m6526_write (_m6526_write (_m6526_write c0 4 0x10).1 5 0x00).1 14 0x01).1
      pins).1.ta_counter = 0x0010 ∧
    (tick_n 0x10
      (_m6526_write (_m6526_write (_m6526_write c0 4 0x10).1 5 0x00).1 14 0x01).1
      pins).1.ta_latch = 0x0010 ∧
    (tick_n 0x10
      (_m6526_write (_m6526_write (_m6526_write c0 4 0x10).1 5 0x00).1 14 0x01).1
      pins).1.cra = 1 ∧
    (tick_n 0x10
      (_m6526_write (_m6526_write (_m6526_write c0 4 0x10).1 5 0x00).1 14 0x01).1
      pins).2 = [] := by
  unfold m6526_init at h0
  split_ifs at h0
  cases h0
  rw [tick_n_eq]
  simp [_m6526_write, _m6526_set_cra, out_b_fst, zeroed, u16, M6526_CRA_START,
    M6526_CRA_RUNMODE, M6526_CRA_RUNMODE_ONESHOT, M6526_CRA_FORCE_LOAD]
  decide

/-- C6 (amended) at callbacks 1 and 2 and pins 0. -/
theorem timer_a_run_keeps_loaded_counter_witness :
    ∃ c0, m6526_init 1 2 = some c0 ∧
      (tick_n 0x10
        (_m6526_write (_m6526_write (_m6526_write c0 4 0x10).1 5 0x00).1 14 0x01).1
        0).1.ta_counter = 0x0010 ∧
      (tick_n 0x10
        (_m6526_write (_m6526_write (_m6526_write c0 4 0x10).1 5 0x00).1 14 0x01).1
        0).1.irq = false :=
  ⟨_, rfl,
    (timer_a_run_keeps_loaded_counter 1 2 0 _ rfl).2.2.1,
    (timer_a_run_keeps_loaded_counter 1 2 0 _ rfl).2.1⟩

/-! ## Ports -/

theorem out_a_data_set_pa (c : m6526_t) (v : Nat) :
    out_a_data { c with pa := v } = out_a_data c := rfl

theorem out_b_data_set_pb (c : m6526_t) (v : Nat) :
    out_b_data { c with pb := v } = out_b_data c := rfl

/-- What `_m6526_out_a` does: nothing when the computed byte equals `pa`, else it stores the
byte in `pa` and passes it to the output callback. -/
theorem out_a_cases (c : m6526_t) :
    (out_a_data c = c.pa ∧ _m6526_out_a c = (c, [])) ∨
    (out_a_data c ≠ c.pa ∧
      _m6526_out_a c =
        ({ c with pa := out_a_data c }, [cb_call.out_call M6526_PORT_A (out_a_data c)])) := by
  unfold _m6526_out_a
  by_cases h : out_a_data c = c.pa
  · left; simp [h]
  · right; simp [h]

/-- What `_m6526_out_b` does: nothing when the computed byte equals `pb`, else it stores the
byte in `pb` and passes it to the output callback. -/
theorem out_b_cases (c : m6526_t) :
    (out_b_data c = c.pb ∧ _m6526_out_b c = (c, [])) ∨
    (out_b_data c ≠ c.pb ∧
      _m6526_out_b c =
        ({ c with pb := out_b_data c }, [cb_call.out_call M6526_PORT_B (out_b_data c)])) := by
  unfold _m6526_out_b
  by_cases h : out_b_data c = c.pb
  · left; simp [h]
  · right; simp [h]

/-- After `_m6526_out_a` the cached byte is the computed byte, so a second run is silent. -/
theorem out_a_idem (c : m6526_t) : _m6526_out_a (_m6526_out_a c).1 = ((_m6526_out_a c).1, []) := by
  rw [out_a_fst]
  unfold _m6526_out_a
  simp [out_a_data_set_pa]

/-- After `_m6526_out_b` the cached byte is the computed byte, so a second run is silent. -/
theorem out_b_idem (c : m6526_t) : _m6526_out_b (_m6526_out_b c).1 = ((_m6526_out_b c).1, []) := by
  rw [out_b_fst]
  unfold _m6526_out_b
  simp [out_b_data_set_pb]

/-- C7: a write to a port data or direction register (registers 0-3) invokes the output
callback at most once, and only when the recomputed output byte differs from the cached
last output (`pa` / `pb`), after which the cache equals the delivered byte; in every case
the cache then equals the recomputed byte, so an immediate second write of the same byte
to the same register changes nothing and invokes no callback: two such writes invoke the
callback at most once in total. -/
theorem port_write_notifies_at_most_once (c : m6526_t) (addr d : Nat) (ha : addr < 4) :
    ((_m6526_write c addr d).2 = [] ∧
        last_output (_m6526_write c addr d).1 (port_of_reg addr)
          = last_output c (port_of_reg addr) ∨
      (_m6526_write c addr d).2 =
          [cb_call.out_call (port_of_reg addr)
            (last_output (_m6526_write c addr d).1 (port_of_reg addr))] ∧
        last_output (_m6526_write c addr d).1 (port_of_reg addr)
          ≠ last_output c (port_of_reg addr)) ∧
    last_output (_m6526_write c addr d).1 (port_of_reg addr)
      = port_out_data (_m6526_write c addr d).1 (port_of_reg addr) ∧
    _m6526_write (_m6526_write c addr d).1 addr d = ((_m6526_write c addr d).1, []) ∧
    ((_m6526_write c addr d).2 ++ (_m6526_write (_m6526_write c addr d).1 addr d).2).length
      ≤ 1 := by
  have key : ((_m6526_write c addr d).2 = [] ∧
        last_output (_m6526_write c addr d).1 (port_of_reg addr)
          = last_output c (port_of_reg addr) ∨
      (_m6526_write c addr d).2 =
          [cb_call.out_call (port_of_reg addr)
            (last_output (_m6526_write c addr d).1 (port_of_reg addr))] ∧
        last_output (_m6526_write c addr d).1 (port_of_reg addr)
          ≠ last_output c (port_of_reg addr)) ∧
    last_output (_m6526_write c addr d).1 (port_of_reg addr)
      = port_out_data (_m6526_write c addr d).1 (port_of_reg addr) ∧
    _m6526_write (_m6526_write c addr d).1 addr d = ((_m6526_write c addr d).1, []) := by
    interval_cases addr
    · have hw : ∀ s : m6526_t, _m6526_write s 0 d = _m6526_out_a { s with pra := d } :=
        fun _ => rfl
      have hs : { (_m6526_out_a { c with pra := d }).1 with pra := d }
          = (_m6526_out_a { c with pra := d }).1 := by rw [out_a_fst]
      refine ⟨?_, ?_, ?_⟩
      · rw [hw]
        rcases out_a_cases { c with pra := d } with ⟨h, e⟩ | ⟨h, e⟩
        · left; rw [e]; exact ⟨rfl, rfl⟩
        · right; rw [e]; exact ⟨rfl, h⟩
      · rw [hw, out_a_fst]; rfl
      · rw [hw, hw, hs, out_a_idem]
    · have hw : ∀ s : m6526_t, _m6526_write s 1 d = _m6526_out_b { s with prb := d } :=
        fun _ => rfl
      have hs : { (_m6526_out_b { c with prb := d }).1 with prb := d }
          = (_m6526_out_b { c with prb := d }).1 := by rw [out_b_fst]
      refine ⟨?_, ?_, ?_⟩
      · rw [hw]
        rcases out_b_cases { c with prb := d } with ⟨h, e⟩ | ⟨h, e⟩
        · left; rw [e]; exact ⟨rfl, rfl⟩
        · right; rw [e]; exact ⟨rfl, h⟩
      · rw [hw, out_b_fst]; rfl
      · rw [hw, hw, hs, out_b_idem]
    · have hw : ∀ s : m6526_t, _m6526_write s 2 d = _m6526_out_a { s with ddra := d } :=
        fun _ => rfl
      have hs : { (_m6526_out_a { c with ddra := d }).1 with ddra := d }
          = (_m6526_out_a { c with ddra := d }).1 := by rw [out_a_fst]
      refine ⟨?_, ?_, ?_⟩
      · rw [hw]
        rcases out_a_cases { c with ddra := d } with ⟨h, e⟩ | ⟨h, e⟩
        · left; rw [e]; exact ⟨rfl, rfl⟩
        · right; rw [e]; exact ⟨rfl, h⟩
      · rw [hw, out_a_fst]; rfl
      · rw [hw, hw, hs, out_a_idem]
    · have hw : ∀ s : m6526_t, _m6526_write s 3 d = _m6526_out_b { s with ddrb := d } :=
        fun _ => rfl
      have hs : { (_m6526_out_b { c with ddrb := d }).1 with ddrb := d }
          = (_m6526_out_b { c with ddrb := d }).1 := by rw [out_b_fst]
      refine ⟨?_, ?_, ?_⟩
      · rw [hw]
        rcases out_b_cases { c with ddrb := d } with ⟨h, e⟩ | ⟨h, e⟩
        · left; rw [e]; exact ⟨rfl, rfl⟩
        · right; rw [e]; exact ⟨rfl, h⟩
      · rw [hw, out_b_fst]; rfl
      · rw [hw, hw, hs, out_b_idem]
  obtain ⟨k1, k2, k3⟩ := key
  refine ⟨k1, k2, k3, ?_⟩
  rw [k3]
  rcases k1 with ⟨e, _⟩ | ⟨e, _⟩ <;> rw [e] <;> simp

/-- C7 at the power-on state, register 0 and `d = 0x55`: the first write delivers 0x55
once, the second write is silent. -/
theorem port_write_notifies_at_most_once_witness :
    (0 < 4) ∧
    (_m6526_write (m6526_reset zeroed) 0 0x55).2 = [cb_call.out_call M6526_PORT_A 0x55] ∧
    _m6526_write (_m6526_write (m6526_reset zeroed) 0 0x55).1 0 0x55
      = ((_m6526_write (m6526_reset zeroed) 0 0x55).1, []) :=
  ⟨by decide, by decide,
    (port_write_notifies_at_most_once (m6526_reset zeroed) 0 0x55 (by decide)).2.2.1⟩

/-- A byte-sized merge of two masked bytes needs no truncation. -/
theorem u8_merge (a b x y : Nat) (ha : a < 256) (hb : b < 256) :
    u8 ((a &&& x) ||| (b &&& y)) = (a &&& x) ||| (b &&& y) := by
  apply u8_of_lt
  have h1 : a &&& x < 2 ^ 8 := lt_of_le_of_lt Nat.and_le_left (by simpa using ha)
  have h2 : b &&& y < 2 ^ 8 := lt_of_le_of_lt Nat.and_le_left (by simpa using hb)
  simpa using Nat.or_lt_two_pow h1 h2

/-- C8 (counterexample): after `m6526_init`, a write of 0xFF to register 2 and of 0xFF to
register 0, the state has `ddra = 0xFF` and `pra = 0xFF`; a read of register 0 with host
input byte 0 returns 0, not the driven byte 0xFF, and with host input 0xFF it returns 0xFF,
so the value read depends on the host input. -/
theorem read_port_a_all_outputs_depends_on_input :
    ∃ c0, m6526_init 1 2 = some c0 ∧
      (_m6526_write (_m6526_write c0 2 0xFF).1 0 0xFF).1.ddra = 0xFF ∧
      (_m6526_write (_m6526_write c0 2 0xFF).1 0 0xFF).1.pra = 0xFF ∧
      (_m6526_read (_m6526_write (_m6526_write c0 2 0xFF).1 0 0xFF).1 0 0).2.1 = 0 ∧
      (_m6526_read (_m6526_write (_m6526_write c0 2 0xFF).1 0 0xFF).1 0xFF 0).2.1 = 0xFF :=
  ⟨_, rfl, by decide, by decide, by decide, by decide⟩

/-- C8 (amended): for every well-typed chip state and host input byte `i`, a read of
register 0 returns `(i & ~ddra) | (pra & ddra)` when `ddra != 0xFF`, and `i & pra` when
`ddra == 0xFF`: with all pins outputs the driven byte is still ANDed with the host input. -/
theorem read_port_a_value (c : m6526_t) (i : Nat) (hc : c.wf) (hi : i < 256) :
    (c.ddra ≠ 0xFF →
      (_m6526_read c i 0).2.1 = (i &&& (0xFF ^^^ c.ddra)) ||| (c.pra &&& c.ddra)) ∧
    (c.ddra = 0xFF → (_m6526_read c i 0).2.1 = i &&& c.pra) := by
  have hr : (_m6526_read c i 0).2.1 = in_a_data c i := rfl
  rw [hr]
  unfold in_a_data
  refine ⟨fun h => ?_, fun h => ?_⟩
  · rw [if_pos h, u8_merge _ _ _ _ hi hc.1, and_bnot_byte i c.ddra hi]
  · rw [if_neg (fun hn => hn h)]
    exact u8_of_lt _ (lt_of_le_of_lt Nat.and_le_left hi)

/-- C8 (amended) at `pra = 0xF0` with `ddra = 0x0F` and with `ddra = 0xFF`, host input
0x5A. -/
theorem read_port_a_value_witness :
    ({ m6526_reset zeroed with pra := 0xF0, ddra := 0x0F } : m6526_t).wf ∧ (0x5A < 256) ∧
    (_m6526_read { m6526_reset zeroed with pra := 0xF0, ddra := 0x0F } 0x5A 0).2.1
      = (0x5A &&& (0xFF ^^^ 0x0F)) ||| (0xF0 &&& 0x0F) ∧
    (_m6526_read { m6526_reset zeroed with pra := 0xF0, ddra := 0xFF } 0x5A 0).2.1
      = 0x5A &&& 0xF0 :=
  ⟨by decide, by decide,
    (read_port_a_value { m6526_reset zeroed with pra := 0xF0, ddra := 0x0F } 0x5A
      (by decide) (by decide)).1 (by decide),
    (read_port_a_value { m6526_reset zeroed with pra := 0xF0, ddra := 0xFF } 0x5A
      (by decide) (by decide)).2 (by decide)⟩

/-- C9 (counterexample): on the power-on state (`ddra = 0`, `pa_in = 0`, `pa = 0xFF`) a
write of 0x01 to register 0 delivers the byte 0x01 to the output callback and caches it in
`pa`, although `(pra & ddra) | (pa_in & ~ddra)` is 0 there: bit 0 of the data register
appears in the output byte while its direction bit is 0. -/
theorem port_a_output_ignores_direction_for_data :
    ∃ c0, m6526_init 1 2 = some c0 ∧
      (_m6526_write c0 0 0x01).2 = [cb_call.out_call M6526_PORT_A 0x01] ∧
      (_m6526_write c0 0 0x01).1.pa = 0x01 ∧
      (((_m6526_write c0 0 0x01).1.pra &&& (_m6526_write c0 0 0x01).1.ddra) |||
        ((_m6526_write c0 0 0x01).1.pa_in &&& (0xFF ^^^ (_m6526_write c0 0 0x01).1.ddra))) = 0 ∧
      (_m6526_write c0 0 0x01).1.ddra.testBit 0 = false ∧
      (_m6526_write c0 0 0x01).1.pa.testBit 0 = true :=
  ⟨_, rfl, by decide, by decide, by decide, by decide, by decide⟩

theorem out_a_data_eq (s : m6526_t) (h1 : s.pra < 256) (h2 : s.pa_in < 256) :
    out_a_data s = s.pra ||| (s.pa_in &&& (0xFF ^^^ s.ddra)) := by
  unfold out_a_data
  rw [and_bnot_byte _ _ h2]
  apply u8_of_lt
  have h3 : s.pa_in &&& (0xFF ^^^ s.ddra) < 2 ^ 8 :=
    lt_of_le_of_lt Nat.and_le_left (by simpa using h2)
  have h4 : s.pra < 2 ^ 8 := by simpa using h1
  simpa using Nat.or_lt_two_pow h4 h3

/-- C9 (amended): for every well-typed chip state and byte `d`, after a write of `d` to the
port A data register (register 0) or direction register (register 2), the output byte that
is compared with the cached `pa` and, when different, delivered to the output callback and
cached, equals `pra | (pa_in & ~ddra)`: the whole data register, OR-ed with the last
sampled input masked by the inverse of the direction register; every set bit of the data
register therefore appears in the output byte, whatever its direction bit. -/
theorem port_a_output_byte (c : m6526_t) (addr d : Nat) (hc : c.wf) (hd : d < 256)
    (ha : addr = 0 ∨ addr = 2) :
    (_m6526_write c addr d).1.pa
      = (_m6526_write c addr d).1.pra |||
        ((_m6526_write c addr d).1.pa_in &&& (0xFF ^^^ (_m6526_write c addr d).1.ddra)) ∧
    ((_m6526_write c addr d).2 = [] ∧ (_m6526_write c addr d).1.pa = c.pa ∨
      (_m6526_write c addr d).2
          = [cb_call.out_call M6526_PORT_A (_m6526_write c addr d).1.pa] ∧
        (_m6526_write c addr d).1.pa ≠ c.pa) ∧
    (∀ k, (_m6526_write c addr d).1.pra.testBit k = true →
      (_m6526_write c addr d).1.pa.testBit k = true) := by
  have hpa_in : c.pa_in < 256 := hc.2.2.2.1
  have gen : ∀ s : m6526_t, s.pra < 256 → s.pa_in < 256 → s.pa = c.pa →
      (_m6526_out_a s).1.pa
        = (_m6526_out_a s).1.pra |||
          ((_m6526_out_a s).1.pa_in &&& (0xFF ^^^ (_m6526_out_a s).1.ddra)) ∧
      ((_m6526_out_a s).2 = [] ∧ (_m6526_out_a s).1.pa = c.pa ∨
        (_m6526_out_a s).2 = [cb_call.out_call M6526_PORT_A (_m6526_out_a s).1.pa] ∧
          (_m6526_out_a s).1.pa ≠ c.pa) ∧
      (∀ k, (_m6526_out_a s).1.pra.testBit k = true →
        (_m6526_out_a s).1.pa.testBit k = true) := by
    intro s h1 h2 h3
    have e1 : (_m6526_out_a s).1.pa = out_a_data s := by rw [out_a_fst]
    have e2 : (_m6526_out_a s).1.pra = s.pra := by rw [out_a_fst]
    have e3 : (_m6526_out_a s).1.pa_in = s.pa_in := by rw [out_a_fst]
    have e4 : (_m6526_out_a s).1.ddra = s.ddra := by rw [out_a_fst]
    rw [e1, e2, e3, e4]
    refine ⟨out_a_data_eq s h1 h2, ?_, ?_⟩
    · rcases out_a_cases s with ⟨h, e⟩ | ⟨h, e⟩
      · left; rw [e]; exact ⟨rfl, h.trans h3⟩
      · right; rw [e]; exact ⟨rfl, fun hn => h (hn.trans h3.symm)⟩
    · intro k hk
      rw [out_a_data_eq s h1 h2, Nat.testBit_or, hk]
      rfl
  rcases ha with rfl | rfl
  · exact gen { c with pra := d } hd hpa_in rfl
  · exact gen { c with ddra := d } hc.1 hpa_in rfl

/-- C9 (amended) at the power-on state, register 0 and `d = 0x01`. -/
theorem port_a_output_byte_witness :
    (m6526_reset zeroed).wf ∧ (0x01 < 256) ∧
    (_m6526_write (m6526_reset zeroed) 0 0x01).1.pa = 0x01 ∧
    (_m6526_write (m6526_reset zeroed) 0 0x01).1.pa
      = (_m6526_write (m6526_reset zeroed) 0 0x01).1.pra |||
        ((_m6526_write (m6526_reset zeroed) 0 0x01).1.pa_in &&&
          (0xFF ^^^ (_m6526_write (m6526_reset zeroed) 0 0x01).1.ddra)) :=
  ⟨by decide, by decide, by decide,
    (port_a_output_byte (m6526_reset zeroed) 0 0x01 (by decide) (by decide) (Or.inl rfl)).1⟩

/-- C10: for every chip state with `ta_bit`, `tb_bit`, `ta_nul`, `tb_nul` in {0,1}, a read
of register 1 returns a byte whose bits 0-5 are those of the base port-B read value, whose
bit 6 is `ta_bit` if CRA bits 1 and 2 are set, `ta_nul` if CRA bit 1 is set and bit 2 is
clear, and the base bit if CRA bit 1 is clear, and whose bit 7 is determined in the same
way from CRB, `tb_bit` and `tb_nul`. -/
theorem read_port_b_timer_bits (c : m6526_t) (i : Nat)
    (hb : c.ta_bit ≤ 1 ∧ c.tb_bit ≤ 1 ∧ c.ta_nul ≤ 1 ∧ c.tb_nul ≤ 1) :
    (∀ k, k < 6 → (_m6526_read c i 1).2.1.testBit k = (in_b_base c i).testBit k) ∧
    (_m6526_read c i 1).2.1.testBit 6 =
      (if c.cra &&& M6526_CRA_PBON = M6526_CRA_PBON_PB6ON then
        (if c.cra &&& M6526_CRA_OUTMODE ≠ 0 then decide (c.ta_bit = 1)
          else decide (c.ta_nul = 1))
      else (in_b_base c i).testBit 6) ∧
    (_m6526_read c i 1).2.1.testBit 7 =
      (if c.crb &&& M6526_CRB_PBON = M6526_CRB_PBON_PB7ON then
        (if c.crb &&& M6526_CRB_OUTMODE ≠ 0 then decide (c.tb_bit = 1)
          else decide (c.tb_nul = 1))
      else (in_b_base c i).testBit 7) ∧
    (_m6526_read c i 1).2.1 < 256 := by
  obtain ⟨hta, htb, hna, hnb⟩ := hb
  have hr : (_m6526_read c i 1).2.1 = pb_override c (in_b_base c i) := rfl
  have hbase : in_b_base c i < 256 := by
    unfold in_b_base; split_ifs <;> exact u8_lt _
  have hm : ∀ x n b, merge_bit x n b < 256 := fun _ _ _ => u8_lt _
  rw [hr]
  unfold pb_override
  by_cases hA : c.cra &&& M6526_CRA_PBON = M6526_CRA_PBON_PB6ON <;>
    by_cases hAm : c.cra &&& M6526_CRA_OUTMODE = 0 <;>
    by_cases hB : c.crb &&& M6526_CRB_PBON = M6526_CRB_PBON_PB7ON <;>
    by_cases hBm : c.crb &&& M6526_CRB_OUTMODE = 0 <;>
    simp only [hA, hAm, hB, hBm, if_true, if_false, ne_eq, not_true_eq_false,
      not_false_eq_true] <;>
    refine ⟨fun k hk => ?_, ?_, ?_, ?_⟩ <;>
    first
      | exact hbase
      | exact hm _ _ _
      | rfl
      | (simp only [merge_bit_testBit _ _ _ _ hta (by norm_num : 6 < 8) (by omega : k < 8),
          merge_bit_testBit _ _ _ _ htb (by norm_num : 7 < 8) (by omega : k < 8),
          merge_bit_testBit _ _ _ _ hna (by norm_num : 6 < 8) (by omega : k < 8),
          merge_bit_testBit _ _ _ _ hnb (by norm_num : 7 < 8) (by omega : k < 8)]
         have h6 : k ≠ 6 := by omega
         have h7 : k ≠ 7 := by omega
         simp [h6, h7])
      | (simp [merge_bit_testBit _ _ _ _ hta (by norm_num : 6 < 8),
          merge_bit_testBit _ _ _ _ htb (by norm_num : 7 < 8),
          merge_bit_testBit _ _ _ _ hna (by norm_num : 6 < 8),
          merge_bit_testBit _ _ _ _ hnb (by norm_num : 7 < 8)])

/-- C10 at a state with `cra = 0x06` (port output on, toggle mode), `ta_bit = 1`,
`crb = 0x02` (port output on, pulse mode), `tb_nul = 0`, all port-B pins inputs, and host
input 0x8F: the read returns 0x4F, bit 6 taken from `ta_bit` and bit 7 from `tb_nul`. -/
theorem read_port_b_timer_bits_witness :
    ((1 : Nat) ≤ 1 ∧ (0 : Nat) ≤ 1 ∧ (0 : Nat) ≤ 1 ∧ (0 : Nat) ≤ 1) ∧
    in_b_base { m6526_reset zeroed with cra := 0x06, crb := 0x02, ta_bit := 1 } 0x8F = 0x8F ∧
    (_m6526_read { m6526_reset zeroed with cra := 0x06, crb := 0x02, ta_bit := 1 } 0x8F 1).2.1
      = 0x4F ∧
    (_m6526_read { m6526_reset zeroed with cra := 0x06, crb := 0x02, ta_bit := 1 }
      0x8F 1).2.1.testBit 6 = true ∧
    (_m6526_read { m6526_reset zeroed with cra := 0x06, crb := 0x02, ta_bit := 1 }
      0x8F 1).2.1.testBit 7 = false :=
  ⟨by decide, by decide, by decide,
    (read_port_b_timer_bits { m6526_reset zeroed with cra := 0x06, crb := 0x02, ta_bit := 1 }
      0x8F (by decide)).2.1,
    (read_port_b_timer_bits { m6526_reset zeroed with cra := 0x06, crb := 0x02, ta_bit := 1 }
      0x8F (by decide)).2.2.1⟩

/-! ## Bus interface -/

/-- C11: for every chip state and every pins value whose chip-select bit (bit 40) is clear,
`m6526_iorq` returns the pins unchanged, leaves every state field unchanged and invokes
neither callback. -/
theorem iorq_without_chip_select (c : m6526_t) (i pins : Nat)
    (hcs : pins &&& M6526_CS = 0) :
    m6526_iorq c i pins = (c, pins, []) := by
  unfold m6526_iorq
  rw [if_neg (fun hn => hn hcs)]

/-- C11 at a state with a pending byte and a read request for register 13 without
chip-select. -/
theorem iorq_without_chip_select_witness :
    (0x0100000D &&& M6526_CS = 0) ∧
    m6526_iorq { m6526_reset zeroed with icr_data := 5 } 0 0x0100000D
      = ({ m6526_reset zeroed with icr_data := 5 }, 0x0100000D, []) :=
  ⟨by decide,
    iorq_without_chip_select { m6526_reset zeroed with icr_data := 5 } 0 0x0100000D
      (by decide)⟩

theorem u8_rs (pins : Nat) : u8 (pins &&& M6526_RS) = pins &&& 0xF := by
  apply u8_of_lt
  exact lt_of_le_of_lt Nat.and_le_right (by decide)

theorem rs_lt (pins : Nat) : pins &&& 0xF < 16 :=
  lt_of_le_of_lt Nat.and_le_right (by decide)

theorem testBit_u64_high (p k : Nat) (hp : p < 2 ^ 64) (hk : 64 ≤ k) :
    p.testBit k = false := by
  apply Nat.testBit_lt_two_pow
  exact lt_of_lt_of_le hp (Nat.pow_le_pow_right (by norm_num) hk)

theorem testBit_data_mask (k : Nat) :
    Nat.testBit 0xFFFFFFFFFF00FFFF k = (decide (k < 64) && !(decide (16 ≤ k) && decide (k < 24))) := by
  have h : (0xFFFFFFFFFF00FFFF : Nat) = (2 ^ 64 - 1) ^^^ (0xFF <<< 16) := by decide
  rw [h, Nat.testBit_xor, Nat.testBit_two_pow_sub_one, Nat.testBit_shiftLeft, testBit_FF]
  by_cases h64 : k < 64 <;> by_cases h16 : 16 ≤ k <;> by_cases h24 : k < 24 <;>
    simp [h64, h16, h24] <;> omega

/-- The bits of the pins outside the data bus survive `M6526_SET_DATA`. -/
theorem set_data_other_bits (p d k : Nat) (hp : p < 2 ^ 64) (hk : k < 16 ∨ 24 ≤ k) :
    (M6526_SET_DATA p d).testBit k = p.testBit k := by
  unfold M6526_SET_DATA
  rw [Nat.testBit_or, Nat.testBit_and, testBit_data_mask, Nat.testBit_shiftLeft,
    Nat.testBit_and, testBit_FF]
  by_cases h64 : k < 64
  · rcases hk with hk | hk
    · have h16 : ¬ 16 ≤ k := by omega
      simp [h64, h16]
    · have h24 : ¬ k < 24 := by omega
      have h8 : ¬ k - 16 < 8 := by omega
      simp [h64, h24, h8]
  · have hz := testBit_u64_high p k hp (by omega)
    have h8 : ¬ k - 16 < 8 := by omega
    simp [h64, hz, h8]

/-- The data bus bits after `M6526_SET_DATA` hold the merged byte. -/
theorem get_set_data (p d : Nat) (hd : d < 256) : M6526_GET_DATA (M6526_SET_DATA p d) = d := by
  unfold M6526_GET_DATA M6526_SET_DATA
  apply Nat.eq_of_testBit_eq
  intro k
  rw [testBit_u8, Nat.testBit_shiftRight, Nat.testBit_or, Nat.testBit_and, testBit_data_mask,
    Nat.testBit_shiftLeft, Nat.testBit_and, testBit_FF]
  by_cases hk : k < 8
  · have h1 : 16 + k < 64 := by omega
    have h2 : 16 ≤ 16 + k := by omega
    have h3 : 16 + k < 24 := by omega
    simp [hk, h1, h2, h3]
  · simp [hk, testBit_byte_high d k hd (by omega)]

theorem pb_override_lt (c : m6526_t) (x : Nat) (hx : x < 256) : pb_override c x < 256 := by
  unfold pb_override
  simp only []
  split_ifs <;> first | exact hx | exact u8_lt _

theorem in_b_base_lt (c : m6526_t) (i : Nat) : in_b_base c i < 256 := by
  unfold in_b_base; split_ifs <;> exact u8_lt _

theorem in_a_data_lt (c : m6526_t) (i : Nat) : in_a_data c i < 256 := by
  unfold in_a_data; split_ifs <;> exact u8_lt _

/-- The value returned by a register read is a byte. -/
theorem read_data_lt (c : m6526_t) (i addr : Nat) (hc : c.wf) :
    (_m6526_read c i addr).2.1 < 256 := by
  obtain ⟨_, hddra, _, _, _, hddrb, _, _, _, _, _, _, hcra, hcrb, _, hicr, _, _, _, _⟩ := hc
  unfold _m6526_read
  split
  · exact in_a_data_lt c i
  · exact pb_override_lt _ _ (in_b_base_lt c i)
  · exact hddra
  · exact hddrb
  · exact u8_lt _
  · exact u8_lt _
  · exact u8_lt _
  · exact u8_lt _
  · exact hicr
  · exact hcra
  · exact hcrb
  · show (255 : Nat) < 256
    decide

/-- C12: with chip-select set, a read request (RW bit 24 set) returns the pins with the
byte read from register `pins & 0xF` in bits 16-23 and all other bits identical to the
input pins; a write request (RW clear) writes the byte in bits 16-23 to register
`pins & 0xF` and returns the pins unchanged. -/
theorem iorq_selected (c : m6526_t) (i pins : Nat) (hc : c.wf) (hp : pins < 2 ^ 64)
    (hcs : pins &&& M6526_CS ≠ 0) :
    (pins &&& M6526_RW ≠ 0 →
      (m6526_iorq c i pins).1 = (_m6526_read c i (pins &&& 0xF)).1 ∧
      (m6526_iorq c i pins).2.2 = (_m6526_read c i (pins &&& 0xF)).2.2 ∧
      M6526_GET_DATA (m6526_iorq c i pins).2.1 = (_m6526_read c i (pins &&& 0xF)).2.1 ∧
      (∀ k, k < 16 ∨ 24 ≤ k → (m6526_iorq c i pins).2.1.testBit k = pins.testBit k)) ∧
    (pins &&& M6526_RW = 0 →
      m6526_iorq c i pins =
        ((_m6526_write c (pins &&& 0xF) (M6526_GET_DATA pins)).1, pins,
          (_m6526_write c (pins &&& 0xF) (M6526_GET_DATA pins)).2)) := by
  refine ⟨fun hrw => ?_, fun hrw => ?_⟩
  · have e : m6526_iorq c i pins =
        ((_m6526_read c i (pins &&& 0xF)).1,
          M6526_SET_DATA pins (_m6526_read c i (pins &&& 0xF)).2.1,
          (_m6526_read c i (pins &&& 0xF)).2.2) := by
      unfold m6526_iorq
      rw [if_pos hcs, if_pos hrw, u8_rs]
    rw [e]
    exact ⟨rfl, rfl, get_set_data _ _ (read_data_lt c i _ hc),
      fun k hk => set_data_other_bits _ _ k hp hk⟩
  · unfold m6526_iorq
    rw [if_pos hcs, if_neg (fun hn => hn hrw), u8_rs]

/-- C12 at the power-on state with `ddra = 0x3C`: a read request for register 2 with
garbage on the data bus and the port pins set, and a write request of 0xA5 to register 2. -/
theorem iorq_selected_witness :
    ({ m6526_reset zeroed with ddra := 0x3C } : m6526_t).wf ∧
    (0xFF00010001FF0002 < 2 ^ 64) ∧ (0xFF00010001FF0002 &&& M6526_CS ≠ 0) ∧
    (0xFF00010001FF0002 &&& M6526_RW ≠ 0) ∧
    (0x0000010000A50002 &&& M6526_RW = 0) ∧
    (m6526_iorq { m6526_reset zeroed with ddra := 0x3C } 0 0xFF00010001FF0002).2.1
      = 0xFF000100013C0002 ∧
    M6526_GET_DATA
      (m6526_iorq { m6526_reset zeroed with ddra := 0x3C } 0 0xFF00010001FF0002).2.1
      = (_m6526_read { m6526_reset zeroed with ddra := 0x3C } 0
          (0xFF00010001FF0002 &&& 0xF)).2.1 ∧
    m6526_iorq { m6526_reset zeroed with ddra := 0x3C } 0 0x0000010000A50002 =
      ((_m6526_write { m6526_reset zeroed with ddra := 0x3C } (0x0000010000A50002 &&& 0xF)
          (M6526_GET_DATA 0x0000010000A50002)).1, 0x0000010000A50002,
        (_m6526_write { m6526_reset zeroed with ddra := 0x3C } (0x0000010000A50002 &&& 0xF)
          (M6526_GET_DATA 0x0000010000A50002)).2) :=
  ⟨by decide, by decide, by decide, by decide, by decide, by decide,
    ((iorq_selected { m6526_reset zeroed with ddra := 0x3C } 0 0xFF00010001FF0002
      (by decide) (by decide) (by decide)).1 (by decide)).2.2.1,
    (iorq_selected { m6526_reset zeroed with ddra := 0x3C } 0 0x0000010000A50002
      (by decide) (by decide) (by decide)).2 (by decide)⟩

/-- C13: for every chip state and every unassigned register address 8..12, a read returns
0xFF and leaves the state unchanged, and a write of any byte leaves the state unchanged;
neither invokes a callback. -/
theorem unassigned_registers (c : m6526_t) (i a d : Nat) (h8 : 8 ≤ a) (h12 : a ≤ 12) :
    _m6526_read c i a = (c, 0xFF, []) ∧ _m6526_write c a d = (c, []) := by
  interval_cases a <;> exact ⟨rfl, rfl⟩

/-- C13 at register 10 of a state with non-trivial registers. -/
theorem unassigned_registers_witness :
    (8 ≤ 10) ∧ (10 ≤ 12) ∧
    _m6526_read { m6526_reset zeroed with pra := 7, icr_data := 3 } 0x55 10
      = ({ m6526_reset zeroed with pra := 7, icr_data := 3 }, 0xFF, []) ∧
    _m6526_write { m6526_reset zeroed with pra := 7, icr_data := 3 } 10 0xAA
      = ({ m6526_reset zeroed with pra := 7, icr_data := 3 }, []) :=
  ⟨by decide, by decide,
    (unassigned_registers { m6526_reset zeroed with pra := 7, icr_data := 3 } 0x55 10 0xAA
      (by decide) (by decide)).1,
    (unassigned_registers { m6526_reset zeroed with pra := 7, icr_data := 3 } 0x55 10 0xAA
      (by decide) (by decide)).2⟩

/-! ## Initialization -/

/-- C14: for every pair of non-null callbacks `m6526_init` produces a state with
`ta_latch = tb_latch = 0xFFFF`, `pa = pb = 0xFF`, `cra = crb = icr_mask = icr_data = 0`,
`irq = false`, and the two callbacks stored. -/
theorem init_power_on_defaults (in_cb out_cb : Nat) (hin : in_cb ≠ 0) (hout : out_cb ≠ 0) :
    ∃ c, m6526_init in_cb out_cb = some c ∧
      c.ta_latch = 0xFFFF ∧ c.tb_latch = 0xFFFF ∧ c.pa = 0xFF ∧ c.pb = 0xFF ∧
      c.cra = 0 ∧ c.crb = 0 ∧ c.icr_mask = 0 ∧ c.icr_data = 0 ∧ c.irq = false ∧
      c.in_cb = in_cb ∧ c.out_cb = out_cb := by
  unfold m6526_init
  rw [if_pos ⟨hin, hout⟩]
  exact ⟨_, rfl, rfl, rfl, rfl, rfl, rfl, rfl, rfl, rfl, rfl, rfl, rfl⟩

/-- C14 at the callbacks 1 and 2. -/
theorem init_power_on_defaults_witness :
    (1 ≠ 0) ∧ (2 ≠ 0) ∧
    ∃ c, m6526_init 1 2 = some c ∧
      c.ta_latch = 0xFFFF ∧ c.tb_latch = 0xFFFF ∧ c.pa = 0xFF ∧ c.pb = 0xFF ∧
      c.cra = 0 ∧ c.crb = 0 ∧ c.icr_mask = 0 ∧ c.icr_data = 0 ∧ c.irq = false ∧
      c.in_cb = 1 ∧ c.out_cb = 2 :=
  ⟨by decide, by decide, init_power_on_defaults 1 2 (by decide) (by decide)⟩

/-! ## Interrupt mask -/

theorem set_flag_bit (a : Nat) : (0x80 ||| a) &&& 0x80 ≠ 0 := by
  intro h
  have h7 : ((0x80 ||| a) &&& 0x80).testBit 7 = true := by
    rw [Nat.testBit_and, Nat.testBit_or]
    have : Nat.testBit 0x80 7 = true := by decide
    simp [this]
  rw [h] at h7
  simp at h7

/-- The mask after two writes to register 13 that both have bit 7 set. -/
theorem write_icr_twice_mask (c : m6526_t) (a b : Nat) :
    (_m6526_write (_m6526_write c 13 (0x80 ||| a)).1 13 (0x80 ||| b)).1.icr_mask
      = u8 (u8 (c.icr_mask ||| (0x80 ||| a)) ||| (0x80 ||| b)) := by
  rw [write_icr_eq, write_icr_eq]
  simp only [if_pos (set_flag_bit a), if_pos (set_flag_bit b)]

/-- C15: interrupt-mask enables are cumulative: writing 0x81 and then 0x82 to register 13
leaves mask bits 0 and 1 both set; for all values `a` and `b` (the 7-bit ones in
particular), after writing `0x80|a` and then `0x80|b` the mask contains every bit among
0-6 of `a | b` and every bit among 0-6 that was set before. -/
theorem icr_mask_enables_accumulate (c : m6526_t) (a b : Nat) :
    ((_m6526_write (_m6526_write c 13 0x81).1 13 0x82).1.icr_mask.testBit 0 = true ∧
      (_m6526_write (_m6526_write c 13 0x81).1 13 0x82).1.icr_mask.testBit 1 = true) ∧
    (∀ k, k < 7 → (a ||| b).testBit k = true →
      (_m6526_write (_m6526_write c 13 (0x80 ||| a)).1 13 (0x80 ||| b)).1.icr_mask.testBit k
        = true) ∧
    (∀ k, k < 7 → c.icr_mask.testBit k = true →
      (_m6526_write (_m6526_write c 13 (0x80 ||| a)).1 13 (0x80 ||| b)).1.icr_mask.testBit k
        = true) := by
  have h81 : (0x81 : Nat) = 0x80 ||| 0x01 := by decide
  have h82 : (0x82 : Nat) = 0x80 ||| 0x02 := by decide
  refine ⟨⟨?_, ?_⟩, fun k hk hab => ?_, fun k hk hm => ?_⟩
  · rw [h81, h82, write_icr_twice_mask, testBit_u8, Nat.testBit_or, testBit_u8, Nat.testBit_or,
      Nat.testBit_or, Nat.testBit_or]
    have : Nat.testBit 1 0 = true := by decide
    simp [this]
  · rw [h81, h82, write_icr_twice_mask, testBit_u8, Nat.testBit_or, testBit_u8, Nat.testBit_or,
      Nat.testBit_or, Nat.testBit_or]
    have : Nat.testBit 2 1 = true := by decide
    simp [this]
  · have hk8 : k < 8 := by omega
    rw [Nat.testBit_or] at hab
    rw [write_icr_twice_mask, testBit_u8, Nat.testBit_or, testBit_u8, Nat.testBit_or,
      Nat.testBit_or, Nat.testBit_or]
    rcases Bool.or_eq_true _ _ |>.mp hab with h | h <;> simp [h, hk8]
  · have hk8 : k < 8 := by omega
    rw [write_icr_twice_mask, testBit_u8, Nat.testBit_or, testBit_u8, Nat.testBit_or,
      Nat.testBit_or, Nat.testBit_or]
    simp [hm, hk8]

/-- C15 at a state whose mask is 0x10, with `a = 0x01` and `b = 0x02`: bits 0, 1 and 4 are
set afterwards. -/
theorem icr_mask_enables_accumulate_witness :
    (4 < 7) ∧ (1 < 7) ∧
    (_m6526_write (_m6526_write { m6526_reset zeroed with icr_mask := 0x10 } 13 0x81).1
      13 0x82).1.icr_mask.testBit 0 = true ∧
    (_m6526_write (_m6526_write { m6526_reset zeroed with icr_mask := 0x10 } 13 0x81).1
      13 0x82).1.icr_mask.testBit 1 = true ∧
    (_m6526_write (_m6526_write { m6526_reset zeroed with icr_mask := 0x10 } 13
      (0x80 ||| 0x01)).1 13 (0x80 ||| 0x02)).1.icr_mask.testBit 4 = true :=
  ⟨by decide, by decide,
    (icr_mask_enables_accumulate { m6526_reset zeroed with icr_mask := 0x10 } 0x01 0x02).1.1,
    (icr_mask_enables_accumulate { m6526_reset zeroed with icr_mask := 0x10 } 0x01 0x02).2.1
      1 (by decide) (by decide),
    (icr_mask_enables_accumulate { m6526_reset zeroed with icr_mask := 0x10 } 0x01 0x02).2.2
      4 (by decide) (by decide)⟩

/-- C16: for every chip state and every byte `d`, a write of `d` to register 13, whether it
sets or clears mask bits, leaves the pending byte `icr_data` unchanged. -/
theorem write_icr_keeps_pending (c : m6526_t) (d : Nat) :
    (_m6526_write c 13 d).1.icr_data = c.icr_data := by
  rw [write_icr_eq]

/-! ## Interrupt line -/

theorem iorq_without_cs_state (c : m6526_t) (i pins : Nat) (hcs : pins &&& M6526_CS = 0) :
    (m6526_iorq c i pins).1 = c := by
  unfold m6526_iorq
  rw [if_neg (fun hn => hn hcs)]

theorem set_cra_irq_frame (c : m6526_t) (d : Nat) :
    (_m6526_set_cra c d).1.irq = c.irq ∧ (_m6526_set_cra c d).1.icr_data = c.icr_data ∧
    (_m6526_set_cra c d).1.icr_mask = c.icr_mask := by
  unfold _m6526_set_cra
  simp only []
  split_ifs <;> simp [out_b_fst]

theorem set_crb_irq_frame (c : m6526_t) (d : Nat) :
    (_m6526_set_crb c d).1.irq = c.irq ∧ (_m6526_set_crb c d).1.icr_data = c.icr_data ∧
    (_m6526_set_crb c d).1.icr_mask = c.icr_mask := by
  unfold _m6526_set_crb
  simp only []
  split_ifs <;> simp [out_b_fst]

/-- A register write leaves `irq` and `icr_data` alone, and the mask too unless it goes
to register 13. -/
theorem write_irq_frame (c : m6526_t) (a d : Nat) :
    (_m6526_write c a d).1.irq = c.irq ∧ (_m6526_write c a d).1.icr_data = c.icr_data ∧
    (a ≠ 13 → (_m6526_write c a d).1.icr_mask = c.icr_mask) := by
  unfold _m6526_write
  split
  · simp [out_a_fst]
  · simp [out_b_fst]
  · simp [out_a_fst]
  · simp [out_b_fst]
  · simp only []; split_ifs <;> simp
  · simp only []
    split_ifs <;> simp [set_cra_irq_frame]
  · simp only []; split_ifs <;> simp
  · simp only []
    split_ifs <;> simp [set_crb_irq_frame]
  · split_ifs <;> simp
  · exact ⟨(set_cra_irq_frame c d).1, (set_cra_irq_frame c d).2.1,
      fun _ => (set_cra_irq_frame c d).2.2⟩
  · exact ⟨(set_crb_irq_frame c d).1, (set_crb_irq_frame c d).2.1,
      fun _ => (set_crb_irq_frame c d).2.2⟩
  · simp

/-- A register read either leaves `irq`, `icr_data` and `icr_mask` alone or (register 13)
clears `irq` and `icr_data` and leaves the mask. -/
theorem read_irq_frame (c : m6526_t) (i a : Nat) :
    ((_m6526_read c i a).1.irq = c.irq ∧ (_m6526_read c i a).1.icr_data = c.icr_data ∨
      (_m6526_read c i a).1.irq = false ∧ (_m6526_read c i a).1.icr_data = 0) ∧
    (_m6526_read c i a).1.icr_mask = c.icr_mask := by
  unfold _m6526_read
  split <;> simp [_m6526_in_a, _m6526_in_b]

/-! ## Timer toggle bit -/

/-- C20: a write of `d` to register 14 sets `ta_bit` to 1 when the stored start bit (CRA
bit 0) is clear and bit 0 of `d` is set; every other write to register 14 leaves `ta_bit`
unchanged.  The same holds for register 15, CRB and `tb_bit`. -/
theorem start_transition_primes_toggle_bit (c : m6526_t) (d : Nat) :
    (c.cra &&& M6526_CRA_START = 0 → d &&& M6526_CRA_START ≠ 0 →
      (_m6526_write c 14 d).1.ta_bit = 1) ∧
    (¬ (c.cra &&& M6526_CRA_START = 0 ∧ d &&& M6526_CRA_START ≠ 0) →
      (_m6526_write c 14 d).1.ta_bit = c.ta_bit) ∧
    (c.crb &&& M6526_CRB_START = 0 → d &&& M6526_CRB_START ≠ 0 →
      (_m6526_write c 15 d).1.tb_bit = 1) ∧
    (¬ (c.crb &&& M6526_CRB_START = 0 ∧ d &&& M6526_CRB_START ≠ 0) →
      (_m6526_write c 15 d).1.tb_bit = c.tb_bit) := by
  have hA := (set_cra_fst c d).2.2.2
  have hB := (set_crb_fst c d).2.2.2
  have hw14 : _m6526_write c 14 d = _m6526_set_cra c d := rfl
  have hw15 : _m6526_write c 15 d = _m6526_set_crb c d := rfl
  have s1 : M6526_CRA_START = 1 := rfl
  have s2 : M6526_CRB_START = 1 := rfl
  rw [hw14, hw15, hA, hB, s1, s2]
  refine ⟨fun h1 h2 => ?_, fun h => ?_, fun h1 h2 => ?_, fun h => ?_⟩
  · rw [if_pos ⟨h1, h2⟩]
  · rw [if_neg h]
  · rw [if_pos ⟨h1, h2⟩]
  · rw [if_neg h]

/-- C20 at a stopped state with toggle bits 0 (write 0x01 starts, write 0x00 does not) and
at a running state with toggle bits 0 (write 0x01 is no transition). -/
theorem start_transition_primes_toggle_bit_witness :
    ((m6526_reset zeroed).cra &&& M6526_CRA_START = 0 ∧ 0x01 &&& M6526_CRA_START ≠ 0) ∧
    (_m6526_write (m6526_reset zeroed) 14 0x01).1.ta_bit = 1 ∧
    (_m6526_write (m6526_reset zeroed) 15 0x01).1.tb_bit = 1 ∧
    (_m6526_write (m6526_reset zeroed) 14 0x00).1.ta_bit = (m6526_reset zeroed).ta_bit ∧
    (_m6526_write { m6526_reset zeroed with cra := 1, crb := 1 } 14 0x01).1.ta_bit = 0 ∧
    (_m6526_write { m6526_reset zeroed with cra := 1, crb := 1 } 15 0x01).1.tb_bit = 0 :=
  ⟨by decide,
    (start_transition_primes_toggle_bit (m6526_reset zeroed) 0x01).1 (by decide) (by decide),
    (start_transition_primes_toggle_bit (m6526_reset zeroed) 0x01).2.2.1
      (by decide) (by decide),
    (start_transition_primes_toggle_bit (m6526_reset zeroed) 0x00).2.1 (by decide),
    (start_transition_primes_toggle_bit { m6526_reset zeroed with cra := 1, crb := 1 }
      0x01).2.1 (by decide),
    (start_transition_primes_toggle_bit { m6526_reset zeroed with cra := 1, crb := 1 }
      0x01).2.2.2 (by decide)⟩

end M6526

namespace Kbd

/-! ## Keyboard matrix: a registered key lights its line -/

/-- The mask `kbd_register_key` stores for a key at (`column`, `line`) without modifiers. -/
theorem plain_mask_parts : ∀ column < 12, ∀ line < 12,
    u32 (int_to_u32 (0 * 2 ^ (KBD_MAX_COLUMNS + KBD_MAX_LINES)) |||
        (1 <<< (column + KBD_MAX_COLUMNS)) ||| (1 <<< line)) ≠ 0 ∧
    _kbd_columns (u32 (int_to_u32 (0 * 2 ^ (KBD_MAX_COLUMNS + KBD_MAX_LINES)) |||
        (1 <<< (column + KBD_MAX_COLUMNS)) ||| (1 <<< line))) = 1 <<< column ∧
    _kbd_lines (u32 (int_to_u32 (0 * 2 ^ (KBD_MAX_COLUMNS + KBD_MAX_LINES)) |||
        (1 <<< (column + KBD_MAX_COLUMNS)) ||| (1 <<< line))) = 1 <<< line ∧
    _kbd_mod (u32 (int_to_u32 (0 * 2 ^ (KBD_MAX_COLUMNS + KBD_MAX_LINES)) |||
        (1 <<< (column + KBD_MAX_COLUMNS)) ||| (1 <<< line))) = 0 ∧
    u16 (0 ||| (1 <<< line)) = 1 <<< line := by
  decide

/-- A one-bit column mask is contained in `x` exactly when that bit of `x` is set. -/
theorem one_bit_and_eq_iff (c x : Nat) : (1 <<< c) &&& x = 1 <<< c ↔ x.testBit c = true := by
  rw [Nat.one_shiftLeft]
  constructor
  · intro h
    have h1 : ((2 ^ c) &&& x).testBit c = (2 ^ c).testBit c := by rw [h]
    rw [Nat.testBit_and, Nat.testBit_two_pow_self] at h1
    simpa using h1
  · intro h
    apply Nat.eq_of_testBit_eq
    intro j
    rw [Nat.testBit_and, Nat.testBit_two_pow]
    by_cases hj : c = j
    · subst hj; simp [h]
    · simp [hj]

theorem register_key_eq (kbd : kbd_t) (key column line mod_mask : Int)
    (h : (0 ≤ key ∧ key < 256) ∧ (0 ≤ column ∧ column < 12) ∧ (0 ≤ line ∧ line < 12)) :
    kbd_register_key kbd key column line mod_mask =
      some { kbd with
        key_masks := fun j =>
          if j = Int.toNat key then
            u32 (int_to_u32 (mod_mask * 2 ^ (KBD_MAX_COLUMNS + KBD_MAX_LINES)) |||
              (1 <<< (column.toNat + KBD_MAX_COLUMNS)) ||| (1 <<< line.toNat))
          else kbd.key_masks j } := by
  unfold kbd_register_key
  rw [if_pos h]

theorem key_down_eq (kbd : kbd_t) (key : Int) (h : 0 ≤ key ∧ key < 256) :
    kbd_key_down kbd key =
      some { kbd with
        key_buffer :=
          key_down_slots key (kbd.key_masks key.toNat) kbd.frame_count kbd.key_buffer } := by
  unfold kbd_key_down
  rw [if_pos h]

theorem key_up_eq (kbd : kbd_t) (key : Int) (h : 0 ≤ key ∧ key < 256) :
    kbd_key_up kbd key =
      some { kbd with
        key_buffer := kbd.key_buffer.map fun k =>
          if key = k.key then { k with released_frame := kbd.frame_count } else k } := by
  unfold kbd_key_up
  rw [if_pos h]

/-- C18: for every key in 0..255, column in 0..11 and line in 0..11, after `kbd_init`,
`kbd_register_key(key, column, line, 0)` and `kbd_key_down(key)`, the call
`kbd_test_lines(column_mask)` returns exactly `1 << line` when bit `column` of
`column_mask` is set and 0 when it is clear, for every `column_mask` (the 16-bit values in
particular). -/
theorem registered_key_lights_its_line (desc : kbd_desc_t) (key column line column_mask : Nat)
    (hk : key < 256) (hc : column < 12) (hl : line < 12) :
    ∃ k1 k2, kbd_register_key (kbd_init desc) key column line 0 = some k1 ∧
      kbd_key_down k1 key = some k2 ∧
      kbd_test_lines k2 column_mask
        = if column_mask.testBit column = true then 1 <<< line else 0 := by
  have hkey : 0 ≤ (key : Int) ∧ (key : Int) < 256 := by constructor <;> omega
  have hcol : 0 ≤ (column : Int) ∧ (column : Int) < 12 := by constructor <;> omega
  have hline : 0 ≤ (line : Int) ∧ (line : Int) < 12 := by constructor <;> omega
  obtain ⟨v0, vc, vl, vm, vu⟩ := plain_mask_parts column hc line hl
  refine ⟨_, _, register_key_eq _ _ _ _ _ ⟨hkey, hcol, hline⟩, key_down_eq _ _ hkey, ?_⟩
  · simp only [kbd_test_lines, kbd_init, KBD_MAX_PRESSED_KEYS, List.replicate, key_down_slots,
      empty_slot, Int.toNat_ofNat, if_true, List.foldl]
    simp only [test_lines_slot, Int.toNat_ofNat, if_true, vm, vc, vl, ne_eq, v0,
      not_false_eq_true, not_true_eq_false, if_false, vu]
    by_cases hb : column_mask.testBit column = true
    · rw [if_pos ((one_bit_and_eq_iff column column_mask).mpr hb), if_pos hb]
    · rw [if_neg (fun h => hb ((one_bit_and_eq_iff column column_mask).mp h)), if_neg hb]

/-- C18 for the key 65 registered at column 3, line 5, scanned with the column masks
0x0008 (column 3 active) and 0xFFF7 (every column but 3 active). -/
theorem registered_key_lights_its_line_witness :
    (65 < 256 ∧ 3 < 12 ∧ 5 < 12) ∧
    (∃ k1 k2, kbd_register_key (kbd_init { sticky_count := 0 }) (65 : Nat) (3 : Nat) (5 : Nat) 0
        = some k1 ∧
      kbd_key_down k1 (65 : Nat) = some k2 ∧ kbd_test_lines k2 0x0008 = 0x20) ∧
    (∃ k1 k2, kbd_register_key (kbd_init { sticky_count := 0 }) (65 : Nat) (3 : Nat) (5 : Nat) 0
        = some k1 ∧
      kbd_key_down k1 (65 : Nat) = some k2 ∧ kbd_test_lines k2 0xFFF7 = 0) :=
  ⟨by decide,
    registered_key_lights_its_line { sticky_count := 0 } 65 3 5 0x0008
      (by decide) (by decide) (by decide),
    registered_key_lights_its_line { sticky_count := 0 } 65 3 5 0xFFF7
      (by decide) (by decide) (by decide)⟩

/-! ## Keyboard matrix: sticky keys -/

theorem int_to_u32_natCast (S : Nat) (h : S < 4294967296) : int_to_u32 (S : Int) = S := by
  unfold int_to_u32
  omega

/-- An occupied slot is not touched by the loop of `kbd_key_down`. -/
theorem key_down_slots_keeps (key : Int) (m f : Nat) :
    ∀ (l : List key_state_t) (i : Nat) (k : key_state_t),
      l[i]? = some k → k.mask ≠ 0 → (key_down_slots key m f l)[i]? = some k := by
  intro l
  induction l with
  | nil => intro i k h; simp at h
  | cons a l ih =>
    intro i k h hk
    cases i with
    | zero =>
      rw [List.getElem?_cons_zero] at h
      have ha : a = k := Option.some.inj h
      subst ha
      have hne : ¬ (0 = a.mask) := fun e => hk e.symm
      simp only [key_down_slots, if_neg hne, List.getElem?_cons_zero]
    | succ i =>
      rw [List.getElem?_cons_succ] at h
      by_cases h0 : 0 = a.mask
      · simp only [key_down_slots, if_pos h0, List.getElem?_cons_succ]
        exact h
      · simp only [key_down_slots, if_neg h0, List.getElem?_cons_succ]
        exact ih i k h hk

/-- The loop of `kbd_key_down` stores the key in the first free slot. -/
theorem key_down_slots_first_free (key : Int) (m f : Nat) :
    ∀ (l : List key_state_t) (i : Nat) (k : key_state_t),
      l[i]? = some k → k.mask = 0 →
      (∀ j, j < i → ∀ kj, l[j]? = some kj → kj.mask ≠ 0) →
      (key_down_slots key m f l)[i]?
        = some { key := key, mask := m, pressed_frame := f, released_frame := 0 } := by
  intro l
  induction l with
  | nil => intro i k h; simp at h
  | cons a l ih =>
    intro i k h hk hfirst
    cases i with
    | zero =>
      rw [List.getElem?_cons_zero] at h
      have ha : a = k := Option.some.inj h
      subst ha
      simp only [key_down_slots, if_pos hk.symm, List.getElem?_cons_zero]
    | succ i =>
      rw [List.getElem?_cons_succ] at h
      have ha : a.mask ≠ 0 := hfirst 0 (Nat.succ_pos i) a (List.getElem?_cons_zero)
      have hne : ¬ (0 = a.mask) := fun e => ha e.symm
      simp only [key_down_slots, if_neg hne, List.getElem?_cons_succ]
      refine ih i k h hk (fun j hj kj hkj => ?_)
      exact hfirst (j + 1) (Nat.succ_lt_succ hj) kj (by rw [List.getElem?_cons_succ]; exact hkj)

/-- The loop body of `kbd_update` on a slot pressed at frame `F`, when the counter after
the increment is `F + n + 1` and nothing wraps: the slot is emptied exactly when it was
released and `n + 1 > sticky_count`. -/
theorem update_slot_pressed (key : Int) (m F S n r : Nat) (hS : F + n + 1 + S < 4294967296) :
    update_slot (F + n + 1) (S : Int)
        { key := key, mask := m, pressed_frame := F, released_frame := r }
      = if r ≠ 0 ∧ S < n + 1 then empty_slot
        else { key := key, mask := m, pressed_frame := F, released_frame := r } := by
  unfold update_slot
  simp only []
  rw [int_to_u32_natCast S (by omega)]
  have hu : u32 (F + S) = F + S := by unfold u32; omega
  rw [hu]
  by_cases hr : r = 0
  · simp [hr]
  · by_cases hn : S < n + 1
    · have : F + n + 1 > F + S := by omega
      simp [hr, hn, this]
    · have : ¬ (F + n + 1 > F + S) := by omega
      simp [hr, hn, this]

theorem kbd_run_append (s : kbd_t) (xs ys : List kbd_call) :
    kbd_run s (xs ++ ys) = (kbd_run s xs).bind fun t => kbd_run t ys := by
  induction xs generalizing s with
  | nil => simp [kbd_run]
  | cons e xs ih =>
    simp only [List.cons_append, kbd_run]
    cases kbd_apply s e with
    | none => simp
    | some t => simp [ih]

theorem updates_append (xs ys : List kbd_call) :
    updates (xs ++ ys) = updates xs + updates ys := by
  induction xs with
  | nil => simp [updates]
  | cons e xs ih =>
    cases e <;> simp [updates, ih]
    omega

theorem keys_valid_run (ops : List kbd_call) :
    ∀ s : kbd_t, keys_valid ops → ∃ t, kbd_run s ops = some t := by
  induction ops with
  | nil => intro s _; exact ⟨s, rfl⟩
  | cons e ops ih =>
    intro s hv
    cases e with
    | update =>
      obtain ⟨t, ht⟩ := ih (kbd_update s) hv
      exact ⟨t, by simpa [kbd_run, kbd_apply] using ht⟩
    | key_down k =>
      obtain ⟨t, ht⟩ := ih _ hv.2
      exact ⟨t, by simpa [kbd_run, kbd_apply, key_down_eq s k hv.1] using ht⟩
    | key_up k =>
      obtain ⟨t, ht⟩ := ih _ hv.2
      exact ⟨t, by simpa [kbd_run, kbd_apply, key_up_eq s k hv.1] using ht⟩

/-- A run of calls leaves `sticky_count` alone and adds the number of `kbd_update` calls to
the frame counter, as long as the counter does not wrap. -/
theorem kbd_run_frame_count (ops : List kbd_call) :
    ∀ s t : kbd_t, kbd_run s ops = some t → s.frame_count + updates ops < 4294967296 →
      t.frame_count = s.frame_count + updates ops ∧ t.sticky_count = s.sticky_count := by
  induction ops with
  | nil =>
    intro s t h _
    simp only [kbd_run, Option.some.injEq] at h
    subst h
    simp [updates]
  | cons e ops ih =>
    intro s t h hw
    cases e with
    | update =>
      simp only [kbd_run, kbd_apply, Option.some_bind, updates] at h hw
      obtain ⟨h1, h2⟩ := ih _ t h (by
        show u32 (s.frame_count + 1) + updates ops < 4294967296
        unfold u32; omega)
      have hu : (kbd_update s).frame_count = s.frame_count + 1 := by
        show u32 (s.frame_count + 1) = s.frame_count + 1
        unfold u32; omega
      rw [hu] at h1
      refine ⟨by simp only [updates]; omega, h2⟩
    | key_down k =>
      simp only [kbd_run, kbd_apply, updates] at h hw
      unfold kbd_key_down at h
      split_ifs at h
      · simp only [Option.some_bind] at h
        have h3 := ih _ t h hw
        exact h3
      · simp at h
    | key_up k =>
      simp only [kbd_run, kbd_apply, updates] at h hw
      unfold kbd_key_up at h
      split_ifs at h
      · simp only [Option.some_bind] at h
        have h3 := ih _ t h hw
        exact h3
      · simp at h

/-- The slot invariant along a run: a slot that holds a key pressed at frame `F` keeps it
as long as no `kbd_update` comes after a release with more than `S` updates since the
key press; its `released_frame` is non-zero exactly when the key was released. -/
theorem slot_survives (key : Int) (m F S slot : Nat) (hm : m ≠ 0) :
    ∀ (ops : List kbd_call) (s : kbd_t) (n r : Nat),
      keys_valid ops →
      s.sticky_count = (S : Int) →
      s.frame_count = F + n →
      1 ≤ F + n →
      F + n + updates ops + S < 4294967296 →
      s.key_buffer[slot]?
        = some { key := key, mask := m, pressed_frame := F, released_frame := r } →
      (∀ pre post, ops = pre ++ kbd_call.update :: post →
        (r ≠ 0 ∨ kbd_call.key_up key ∈ pre) → n + updates pre + 1 ≤ S) →
      ∃ t r2, kbd_run s ops = some t ∧
        t.key_buffer[slot]?
          = some { key := key, mask := m, pressed_frame := F, released_frame := r2 } ∧
        (r2 ≠ 0 ↔ (r ≠ 0 ∨ kbd_call.key_up key ∈ ops)) ∧
        t.frame_count = F + n + updates ops ∧ t.sticky_count = (S : Int) := by
  intro ops
  induction ops with
  | nil =>
    intro s n r _ hS hF _ _ hslot _
    exact ⟨s, r, rfl, hslot, by simp, by simp [updates, hF], hS⟩
  | cons e ops ih =>
    intro s n r hv hS hF h1 hw hslot hrem
    cases e with
    | update =>
      simp only [updates] at hw
      have hfc : (kbd_update s).frame_count = F + (n + 1) := by
        show u32 (s.frame_count + 1) = F + (n + 1)
        rw [hF]; unfold u32; omega
      have hkeep : ¬ (r ≠ 0 ∧ S < n + 1) := by
        rintro ⟨hr, hlt⟩
        have := hrem [] ops rfl (Or.inl hr)
        simp only [updates] at this
        omega
      have hslot2 : (kbd_update s).key_buffer[slot]?
          = some { key := key, mask := m, pressed_frame := F, released_frame := r } := by
        show (s.key_buffer.map (update_slot (u32 (s.frame_count + 1)) s.sticky_count))[slot]?
          = _
        have hu : u32 (s.frame_count + 1) = F + n + 1 := by
          rw [hF]; unfold u32; omega
        rw [List.getElem?_map, hslot, hu, hS, Option.map_some',
          update_slot_pressed key m F S n r (by omega), if_neg hkeep]
      obtain ⟨t, r2, ht, hts, hr2, htf, htS⟩ :=
        ih (kbd_update s) (n + 1) r hv hS hfc (by omega) (by omega) hslot2
          (fun pre post hops hrel => by
            have := hrem (kbd_call.update :: pre) post (by rw [hops]; rfl)
              (hrel.imp id (fun h => List.mem_cons_of_mem _ h))
            simp only [updates] at this
            omega)
      refine ⟨t, r2, by simpa [kbd_run, kbd_apply] using ht, hts, ?_, ?_, htS⟩
      · rw [hr2]
        simp
      · rw [htf]; simp only [updates]; omega
    | key_down k =>
      simp only [updates] at hw
      have hslot2 : (key_down_slots k (s.key_masks k.toNat) s.frame_count s.key_buffer)[slot]?
          = some { key := key, mask := m, pressed_frame := F, released_frame := r } :=
        key_down_slots_keeps k _ _ s.key_buffer slot _ hslot hm
      obtain ⟨t, r2, ht, hts, hr2, htf, htS⟩ :=
        ih { s with key_buffer :=
              key_down_slots k (s.key_masks k.toNat) s.frame_count s.key_buffer }
          n r hv.2 hS hF h1 hw hslot2
          (fun pre post hops hrel => by
            have := hrem (kbd_call.key_down k :: pre) post (by rw [hops]; rfl)
              (hrel.imp id (fun h => List.mem_cons_of_mem _ h))
            simpa only [updates] using this)
      refine ⟨t, r2, by simpa [kbd_run, kbd_apply, key_down_eq s k hv.1] using ht, hts, ?_, ?_,
        htS⟩
      · rw [hr2]
        simp
      · rw [htf]; simp only [updates]
    | key_up k =>
      simp only [updates] at hw
      by_cases hk : k = key
      · subst hk
        have hslot2 : (s.key_buffer.map fun x =>
            if k = x.key then { x with released_frame := s.frame_count } else x)[slot]?
            = some { key := k, mask := m, pressed_frame := F, released_frame := F + n } := by
          rw [List.getElem?_map, hslot, Option.map_some']
          simp [hF]
        obtain ⟨t, r2, ht, hts, hr2, htf, htS⟩ :=
          ih { s with key_buffer := s.key_buffer.map fun x =>
                if k = x.key then { x with released_frame := s.frame_count } else x }
            n (F + n) hv.2 hS hF h1 hw hslot2
            (fun pre post hops _ => by
              have := hrem (kbd_call.key_up k :: pre) post (by rw [hops]; rfl)
                (Or.inr (List.mem_cons_self _ _))
              simpa only [updates] using this)
        refine ⟨t, r2, by simpa [kbd_run, kbd_apply, key_up_eq s k hv.1] using ht, hts, ?_, ?_,
          htS⟩
        · rw [hr2]
          have : F + n ≠ 0 := by omega
          simp [this]
        · rw [htf]; simp only [updates]
      · have hslot2 : (s.key_buffer.map fun x =>
            if k = x.key then { x with released_frame := s.frame_count } else x)[slot]?
            = some { key := key, mask := m, pressed_frame := F, released_frame := r } := by
          rw [List.getElem?_map, hslot, Option.map_some']
          simp [hk]
        obtain ⟨t, r2, ht, hts, hr2, htf, htS⟩ :=
          ih { s with key_buffer := s.key_buffer.map fun x =>
                if k = x.key then { x with released_frame := s.frame_count } else x }
            n r hv.2 hS hF h1 hw hslot2
            (fun pre post hops hrel => by
              have := hrem (kbd_call.key_up k :: pre) post (by rw [hops]; rfl)
                (hrel.imp id (fun h => List.mem_cons_of_mem _ h))
              simpa only [updates] using this)
        refine ⟨t, r2, by simpa [kbd_run, kbd_apply, key_up_eq s k hv.1] using ht, hts, ?_, ?_,
          htS⟩
        · rw [hr2]
          have : ¬ (key = k) := fun h => hk h.symm
          simp [this]
        · rw [htf]; simp only [updates]

theorem keys_valid_append (xs ys : List kbd_call) :
    keys_valid (xs ++ ys) ↔ keys_valid xs ∧ keys_valid ys := by
  induction xs with
  | nil => simp [keys_valid]
  | cons e xs ih =>
    cases e <;> simp [keys_valid, ih, and_assoc]

/-- C17: sticky keys.  In a keyboard state with `sticky_count >= 0` whose frame counter is
at least 1 and does not wrap during the calls considered, let `kbd_key_down(key)` place a
key with non-zero registered mask in the first free slot.  Then for every following
sequence `ops` of `kbd_update`, `kbd_key_down` and `kbd_key_up` calls (with valid keys):
the slot still holds the key (with its non-zero mask) as long as no `kbd_update` came after
a release with `frame_count > pressed_frame + sticky_count`; in particular it holds the key
after each of the first `sticky_count` updates, and for ever when the key is never
released; and the first `kbd_update` made after the release at which
`frame_count > pressed_frame + sticky_count` empties the slot. -/
theorem sticky_key_lifetime (kbd : kbd_t) (key : Int) (slot : Nat) (k0 : key_state_t)
    (hsticky : 0 ≤ kbd.sticky_count) (hfc : 1 ≤ kbd.frame_count)
    (hkey : 0 ≤ key ∧ key < 256) (hmask : kbd.key_masks key.toNat ≠ 0)
    (hslot : kbd.key_buffer[slot]? = some k0) (hfree : k0.mask = 0)
    (hfirst : ∀ j, j < slot → ∀ kj, kbd.key_buffer[j]? = some kj → kj.mask ≠ 0) :
    ∃ kbd1, kbd_key_down kbd key = some kbd1 ∧
      kbd1.key_buffer[slot]?
        = some { key := key, mask := kbd.key_masks key.toNat,
                 pressed_frame := kbd.frame_count, released_frame := 0 } ∧
      ∀ ops, keys_valid ops →
        (kbd.frame_count : Int) + updates ops + kbd.sticky_count < 4294967296 →
        ∃ kbd2, kbd_run kbd1 ops = some kbd2 ∧
          kbd2.frame_count = kbd.frame_count + updates ops ∧
          ((∀ pre post, ops = pre ++ kbd_call.update :: post → kbd_call.key_up key ∈ pre →
              (updates pre : Int) + 1 ≤ kbd.sticky_count) →
            ∃ r, kbd2.key_buffer[slot]?
                = some { key := key, mask := kbd.key_masks key.toNat,
                         pressed_frame := kbd.frame_count, released_frame := r } ∧
              (r ≠ 0 ↔ kbd_call.key_up key ∈ ops)) ∧
          ((updates ops : Int) ≤ kbd.sticky_count →
            ∃ k, kbd2.key_buffer[slot]? = some k ∧ k.key = key ∧
              k.mask = kbd.key_masks key.toNat ∧ k.mask ≠ 0) ∧
          (kbd_call.key_up key ∉ ops →
            ∃ k, kbd2.key_buffer[slot]? = some k ∧ k.key = key ∧
              k.mask = kbd.key_masks key.toNat ∧ k.mask ≠ 0) ∧
          (∀ pre, ops = pre ++ [kbd_call.update] → kbd_call.key_up key ∈ pre →
            (∀ p q, pre = p ++ kbd_call.update :: q → kbd_call.key_up key ∈ p →
              (updates p : Int) + 1 ≤ kbd.sticky_count) →
            (kbd.frame_count : Int) + kbd.sticky_count < kbd2.frame_count →
            kbd2.key_buffer[slot]? = some empty_slot) := by
  obtain ⟨S, hS⟩ := Int.eq_ofNat_of_zero_le hsticky
  refine ⟨_, key_down_eq kbd key hkey, ?_, ?_⟩
  · exact key_down_slots_first_free key _ _ kbd.key_buffer slot k0 hslot hfree hfirst
  · intro ops hv hw
    have hslot1 := key_down_slots_first_free key (kbd.key_masks key.toNat) kbd.frame_count
      kbd.key_buffer slot k0 hslot hfree hfirst
    obtain ⟨kbd2, hrun⟩ := keys_valid_run ops
      { kbd with key_buffer :=
          key_down_slots key (kbd.key_masks key.toNat) kbd.frame_count kbd.key_buffer } hv
    have hwN : kbd.frame_count + updates ops + S < 4294967296 := by
      rw [hS] at hw; omega
    have hfr := (kbd_run_frame_count ops _ kbd2 hrun (by
      show kbd.frame_count + updates ops < 4294967296
      omega)).1
    have hfr2 : kbd2.frame_count = kbd.frame_count + updates ops := hfr
    have hI : (∀ pre post, ops = pre ++ kbd_call.update :: post → kbd_call.key_up key ∈ pre →
          (updates pre : Int) + 1 ≤ kbd.sticky_count) →
        ∃ r, kbd2.key_buffer[slot]?
            = some { key := key, mask := kbd.key_masks key.toNat,
                     pressed_frame := kbd.frame_count, released_frame := r } ∧
          (r ≠ 0 ↔ kbd_call.key_up key ∈ ops) := by
      intro hcond
      obtain ⟨t, r2, ht, hts, hr2, _, _⟩ :=
        slot_survives key (kbd.key_masks key.toNat) kbd.frame_count S slot hmask ops
          { kbd with key_buffer :=
              key_down_slots key (kbd.key_masks key.toNat) kbd.frame_count kbd.key_buffer }
          0 0 hv hS rfl (by omega) (by omega) hslot1
          (fun pre post hops hrel => by
            rcases hrel with h | h
            · exact absurd rfl h
            · have := hcond pre post hops h
              rw [hS] at this
              omega)
      rw [hrun] at ht
      have e : kbd2 = t := Option.some.inj ht
      subst e
      exact ⟨r2, hts, by simpa using hr2⟩
    refine ⟨kbd2, hrun, hfr2, hI, ?_, ?_, ?_⟩
    · intro hle
      obtain ⟨r, hr, _⟩ := hI (fun pre post hops _ => by
        have hc : updates ops = updates pre + (updates post + 1) := by
          rw [hops, updates_append]; rfl
        omega)
      exact ⟨_, hr, rfl, rfl, hmask⟩
    · intro hnot
      obtain ⟨r, hr, _⟩ := hI (fun pre post hops hmem => by
        exact absurd (by rw [hops]; exact List.mem_append_left _ hmem) hnot)
      exact ⟨_, hr, rfl, rfl, hmask⟩
    · intro pre hops hrel hbefore hgt
      have hvp : keys_valid pre := by
        rw [hops] at hv
        exact ((keys_valid_append pre _).mp hv).1
      have hup : updates ops = updates pre + 1 := by
        rw [hops, updates_append]; rfl
      obtain ⟨t, r2, ht, hts, hr2, htf, htS⟩ :=
        slot_survives key (kbd.key_masks key.toNat) kbd.frame_count S slot hmask pre
          { kbd with key_buffer :=
              key_down_slots key (kbd.key_masks key.toNat) kbd.frame_count kbd.key_buffer }
          0 0 hvp hS rfl (by omega) (by omega) hslot1
          (fun p q hp hr => by
            rcases hr with h | h
            · exact absurd rfl h
            · have := hbefore p q hp h
              rw [hS] at this
              omega)
      have hr2' : r2 ≠ 0 := hr2.mpr (Or.inr hrel)
      have hrun2 : kbd_run
          { kbd with key_buffer :=
              key_down_slots key (kbd.key_masks key.toNat) kbd.frame_count kbd.key_buffer }
          ops = some (kbd_update t) := by
        rw [hops, kbd_run_append, ht]
        rfl
      rw [hrun] at hrun2
      have e : kbd2 = kbd_update t := Option.some.inj hrun2
      have hgtN : S < updates pre + 1 := by
        rw [hfr2, hS, hup] at hgt
        omega
      rw [e]
      show (t.key_buffer.map (update_slot (u32 (t.frame_count + 1)) t.sticky_count))[slot]?
        = some empty_slot
      have hu : u32 (t.frame_count + 1) = kbd.frame_count + updates pre + 1 := by
        rw [htf]; unfold u32; omega
      rw [List.getElem?_map, hts, hu, htS, Option.map_some',
        update_slot_pressed key _ kbd.frame_count S (updates pre) r2 (by omega),
        if_pos ⟨hr2', hgtN⟩]

/-- C17 on the state after `kbd_init` (sticky count 2, frame counter 1) with key 65
registered at column 3, line 5 (mask 0x8020): after `kbd_key_down(65)` the key is in slot
0; it is still there after update, release, update (two updates), and the third update
empties the slot. -/
theorem sticky_key_lifetime_witness :
    ∃ kbd1,
      kbd_key_down
        { kbd_init { sticky_count := 2 } with
          key_masks := fun j => if j = 65 then 0x8020 else 0 } 65 = some kbd1 ∧
      kbd1.key_buffer[0]?
        = some { key := 65, mask := 0x8020, pressed_frame := 1, released_frame := 0 } ∧
      (∃ kbd2,
        kbd_run kbd1 [kbd_call.update, kbd_call.key_up 65, kbd_call.update] = some kbd2 ∧
        ∃ k, kbd2.key_buffer[0]? = some k ∧ k.key = 65 ∧ k.mask = 0x8020 ∧ k.mask ≠ 0) ∧
      (∃ kbd3,
        kbd_run kbd1
          [kbd_call.update, kbd_call.key_up 65, kbd_call.update, kbd_call.update]
          = some kbd3 ∧
        kbd3.key_buffer[0]? = some empty_slot) := by
  obtain ⟨kbd1, h1, h2, h3⟩ :=
    sticky_key_lifetime
      { kbd_init { sticky_count := 2 } with
        key_masks := fun j => if j = 65 then 0x8020 else 0 }
      65 0 empty_slot (by decide) (by decide) (by decide) (by decide) rfl rfl
      (fun j hj => absurd hj (Nat.not_lt_zero j))
  refine ⟨kbd1, h1, h2, ?_, ?_⟩
  · obtain ⟨kbd2, hrun, _, _, hII, _, _⟩ :=
      h3 [kbd_call.update, kbd_call.key_up 65, kbd_call.update]
        (by simp [keys_valid]) (by decide)
    exact ⟨kbd2, hrun, hII (by decide)⟩
  · obtain ⟨kbd3, hrun, hfr, _, _, _, hIV⟩ :=
      h3 [kbd_call.update, kbd_call.key_up 65, kbd_call.update, kbd_call.update]
        (by simp [keys_valid]) (by decide)
    refine ⟨kbd3, hrun, hIV [kbd_call.update, kbd_call.key_up 65, kbd_call.update] rfl
      (by simp) (fun p q hp _ => ?_) (by rw [hfr]; decide)⟩
    have hc := congrArg updates hp
    rw [updates_append] at hc
    simp only [updates] at hc
    show (updates p : Int) + 1 ≤ 2
    omega

end Kbd

namespace M6526

/-! ## Input latch -/

theorem in_a_data_eq (c : m6526_t) (i : Nat) (hp : c.pra < 256) (hi : i < 256) :
    in_a_data c i =
      if c.ddra ≠ 0xFF then (i &&& (0xFF ^^^ c.ddra)) ||| (c.pra &&& c.ddra)
      else i &&& c.pra := by
  unfold in_a_data
  split_ifs
  · rw [u8_merge _ _ _ _ hi hp, and_bnot_byte i c.ddra hi]
  · exact u8_of_lt _ (lt_of_le_of_lt Nat.and_le_left hi)

theorem in_b_base_eq (c : m6526_t) (i : Nat) (hp : c.prb < 256) (hi : i < 256) :
    in_b_base c i =
      if c.ddrb ≠ 0xFF then (i &&& (0xFF ^^^ c.ddrb)) ||| (c.prb &&& c.ddrb)
      else i &&& c.prb := by
  unfold in_b_base
  split_ifs
  · rw [u8_merge _ _ _ _ hi hp, and_bnot_byte i c.ddrb hi]
  · exact u8_of_lt _ (lt_of_le_of_lt Nat.and_le_left hi)

/-- C21 (counterexample): after `m6526_init`, a write of 0x0F to register 2 and of 0x0F to
register 0, a read of register 0 with host input byte 0x00 leaves `pa_in = 0x0F`, not the
host byte; the same sequence on registers 3 and 1 leaves `pb_in = 0x0F`. -/
theorem port_read_does_not_cache_host_byte :
    ∃ c0, m6526_init 1 2 = some c0 ∧
      (_m6526_read (_m6526_write (_m6526_write c0 2 0x0F).1 0 0x0F).1 0x00 0).1.pa_in = 0x0F ∧
      (_m6526_read (_m6526_write (_m6526_write c0 3 0x0F).1 1 0x0F).1 0x00 1).1.pb_in = 0x0F ∧
      (0x0F : Nat) ≠ 0x00 :=
  ⟨_, rfl, by decide, by decide, by decide⟩

/-- C21 (amended): a read of a port data register changes only the input latch of that
port and caches in it the merged read value, not the host byte `i` itself: `pa_in` is the
value returned by the read of register 0, `(i & ~ddra) | (pra & ddra)`, or `i & pra` when
`ddra == 0xFF`; `pb_in` is the corresponding value of port B, taken before the timer
overrides of bits 6 and 7. -/
theorem port_read_caches_merged_byte (c : m6526_t) (i : Nat) :
    ((_m6526_read c i 0).1 = { c with pa_in := (_m6526_read c i 0).2.1 } ∧
      (_m6526_read c i 1).1 = { c with pb_in := in_b_base c i } ∧
      (_m6526_read c i 1).2.1 = pb_override c (in_b_base c i)) ∧
    (c.wf → i < 256 →
      (_m6526_read c i 0).1.pa_in =
        (if c.ddra ≠ 0xFF then (i &&& (0xFF ^^^ c.ddra)) ||| (c.pra &&& c.ddra)
         else i &&& c.pra) ∧
      (_m6526_read c i 1).1.pb_in =
        (if c.ddrb ≠ 0xFF then (i &&& (0xFF ^^^ c.ddrb)) ||| (c.prb &&& c.ddrb)
         else i &&& c.prb)) := by
  refine ⟨⟨rfl, rfl, rfl⟩, fun hc hi => ⟨?_, ?_⟩⟩
  · show in_a_data c i = _
    exact in_a_data_eq c i hc.1 hi
  · show in_b_base c i = _
    exact in_b_base_eq c i hc.2.2.2.2.1 hi

/-- C21 (amended) at `pra = prb = 0x0F`, `ddra = ddrb = 0x0F` and host byte 0xA0: the
latches hold 0xAF. -/
theorem port_read_caches_merged_byte_witness :
    ({ m6526_reset zeroed with pra := 0x0F, ddra := 0x0F, prb := 0x0F, ddrb := 0x0F }
      : m6526_t).wf ∧ (0xA0 < 256) ∧
    (_m6526_read
      { m6526_reset zeroed with pra := 0x0F, ddra := 0x0F, prb := 0x0F, ddrb := 0x0F }
      0xA0 0).1.pa_in = 0xAF ∧
    (_m6526_read
      { m6526_reset zeroed with pra := 0x0F, ddra := 0x0F, prb := 0x0F, ddrb := 0x0F }
      0xA0 1).1.pb_in = 0xAF :=
  ⟨by decide, by decide,
    ((port_read_caches_merged_byte
      { m6526_reset zeroed with pra := 0x0F, ddra := 0x0F, prb := 0x0F, ddrb := 0x0F }
      0xA0).2 (by decide) (by decide)).1.trans (by decide),
    ((port_read_caches_merged_byte
      { m6526_reset zeroed with pra := 0x0F, ddra := 0x0F, prb := 0x0F, ddrb := 0x0F }
      0xA0).2 (by decide) (by decide)).2.trans (by decide)⟩

/-! ## Clock advance -/

/-- C22: `m6526_tick` is a stub: for every chip state and every pins value it returns the
pins unchanged, leaves every state field unchanged and invokes no callback. -/
theorem tick_is_identity (c : m6526_t) (pins : Nat) : m6526_tick c pins = (c, pins, []) :=
  rfl

/-! ## States reachable through the public interface -/

/-- The state after `m6526_iorq` is the old state, the state after a register write of a
byte, or the state after a register read. -/
theorem iorq_state_cases (c : m6526_t) (i pins : Nat) :
    (m6526_iorq c i pins).1 = c ∨
    (∃ a d, (m6526_iorq c i pins).1 = (_m6526_write c a d).1) ∨
    (∃ a, (m6526_iorq c i pins).1 = (_m6526_read c i a).1) := by
  unfold m6526_iorq
  by_cases hcs : pins &&& M6526_CS ≠ 0
  · rw [if_pos hcs]
    by_cases hrw : pins &&& M6526_RW ≠ 0
    · rw [if_pos hrw]
      exact Or.inr (Or.inr ⟨_, rfl⟩)
    · rw [if_neg hrw]
      exact Or.inr (Or.inl ⟨_, _, rfl⟩)
  · rw [if_neg hcs]
    exact Or.inl rfl

/-- Every call of the public interface keeps `icr_data = 0` and `irq = false`. -/
theorem apply_keeps_no_pending (c : m6526_t) (e : m6526_call)
    (h : c.icr_data = 0 ∧ c.irq = false) :
    (m6526_apply c e).1.icr_data = 0 ∧ (m6526_apply c e).1.irq = false := by
  cases e with
  | iorq i pins =>
    show (m6526_iorq c i pins).1.icr_data = 0 ∧ (m6526_iorq c i pins).1.irq = false
    rcases iorq_state_cases c i pins with e | ⟨a, d, e⟩ | ⟨a, e⟩
    · rw [e]; exact h
    · rw [e]
      obtain ⟨f1, f2, _⟩ := write_irq_frame c a d
      rw [f1, f2]; exact h
    · rw [e]
      rcases (read_irq_frame c i a).1 with ⟨g1, g2⟩ | ⟨g1, g2⟩
      · rw [g1, g2]; exact h
      · exact ⟨g2, g1⟩
  | tick pins => exact h
  | reset => exact ⟨rfl, rfl⟩

theorem run_keeps_no_pending (calls : List m6526_call) :
    ∀ c : m6526_t, c.icr_data = 0 ∧ c.irq = false →
      (m6526_run c calls).icr_data = 0 ∧ (m6526_run c calls).irq = false := by
  induction calls with
  | nil => intro c h; exact h
  | cons e es ih => intro c h; exact ih _ (apply_keeps_no_pending c e h)

/-- C23: in every chip state reachable from `m6526_init` by a finite sequence of
`m6526_iorq`, `m6526_tick` and `m6526_reset` calls (any pins, any input-callback results)
the pending byte `icr_data` is 0 and `irq` is false; hence every read of register 13,
through `_m6526_read` or through a chip-selected read request of `m6526_iorq`, returns 0. -/
theorem reachable_state_has_no_pending (in_cb out_cb : Nat) (c0 : m6526_t)
    (calls : List m6526_call) (h0 : m6526_init in_cb out_cb = some c0) :
    (m6526_run c0 calls).icr_data = 0 ∧ (m6526_run c0 calls).irq = false ∧
    (∀ i, (_m6526_read (m6526_run c0 calls) i 13).2.1 = 0) ∧
    (∀ i pins, pins &&& M6526_CS ≠ 0 → pins &&& M6526_RW ≠ 0 → pins &&& 0xF = 13 →
      M6526_GET_DATA (m6526_iorq (m6526_run c0 calls) i pins).2.1 = 0) := by
  have hinit : c0.icr_data = 0 ∧ c0.irq = false := by
    unfold m6526_init at h0
    split_ifs at h0
    cases h0
    exact ⟨rfl, rfl⟩
  obtain ⟨h1, h2⟩ := run_keeps_no_pending calls c0 hinit
  refine ⟨h1, h2, fun i => h1, fun i pins hcs hrw h13 => ?_⟩
  have e : (m6526_iorq (m6526_run c0 calls) i pins).2.1
      = M6526_SET_DATA pins (_m6526_read (m6526_run c0 calls) i (pins &&& 0xF)).2.1 := by
    unfold m6526_iorq
    rw [if_pos hcs, if_pos hrw, u8_rs]
  rw [e, h13]
  have hz : (_m6526_read (m6526_run c0 calls) i 13).2.1 = 0 := h1
  rw [hz]
  exact get_set_data pins 0 (by decide)

/-- C23 at the callbacks 1 and 2 and the calls: write 0x81 to register 13, tick, write
0x01 to register 14, reset, read register 0 with host byte 0xFF. -/
theorem reachable_state_has_no_pending_witness :
    ∃ c0, m6526_init 1 2 = some c0 ∧
      (m6526_run c0
        [m6526_call.iorq 0 0x1000081000D, m6526_call.tick 0,
          m6526_call.iorq 0 0x1000001000E, m6526_call.reset,
          m6526_call.iorq 0xFF 0x10001000000]).icr_data = 0 ∧
      (m6526_run c0
        [m6526_call.iorq 0 0x1000081000D, m6526_call.tick 0,
          m6526_call.iorq 0 0x1000001000E, m6526_call.reset,
          m6526_call.iorq 0xFF 0x10001000000]).irq = false :=
  ⟨_, rfl,
    (reachable_state_has_no_pending 1 2 _
      [m6526_call.iorq 0 0x1000081000D, m6526_call.tick 0,
        m6526_call.iorq 0 0x1000001000E, m6526_call.reset,
        m6526_call.iorq 0xFF 0x10001000000] rfl).1,
    (reachable_state_has_no_pending 1 2 _
      [m6526_call.iorq 0 0x1000081000D, m6526_call.tick 0,
        m6526_call.iorq 0 0x1000001000E, m6526_call.reset,
        m6526_call.iorq 0xFF 0x10001000000] rfl).2.1⟩

/-! ## Interrupt line in reachable states -/

/-- With no pending bit and the interrupt line low, `irq` mirrors `icr_data & icr_mask`,
whatever the mask is. -/
theorem mirror_of_no_pending (c : m6526_t) (h : c.icr_data = 0 ∧ c.irq = false) :
    irq_mirrors_pending c := by
  unfold irq_mirrors_pending
  rw [h.1, h.2, Nat.zero_and]
  simp

/-- The byte stored by the force-load branch has bit 4 clear. -/
theorem force_load_stripped (d : Nat) : u8 (d &&& bnot 16) &&& 16 = 0 := by
  apply Nat.eq_of_testBit_eq
  intro k
  have h16 : (16 : Nat) = 2 ^ 4 := by norm_num
  rw [Nat.testBit_and, testBit_u8, Nat.testBit_and, Nat.zero_testBit]
  by_cases hk : k = 4
  · subst hk
    rw [testBit_bnot 16 4 (by norm_num)]
    have : Nat.testBit 16 4 = true := by decide
    simp [this]
  · have : Nat.testBit 16 k = false := by
      rw [h16, Nat.testBit_two_pow]
      simp [Ne.symm hk]
    simp [this]

theorem set_cra_timer_frame (c : m6526_t) (d : Nat) :
    (_m6526_set_cra c d).1.tb_bit = c.tb_bit ∧ (_m6526_set_cra c d).1.ta_nul = c.ta_nul ∧
    (_m6526_set_cra c d).1.tb_nul = c.tb_nul ∧ (_m6526_set_cra c d).1.crb = c.crb := by
  unfold _m6526_set_cra
  simp only []
  split_ifs <;> simp [out_b_fst]

theorem set_crb_timer_frame (c : m6526_t) (d : Nat) :
    (_m6526_set_crb c d).1.ta_bit = c.ta_bit ∧ (_m6526_set_crb c d).1.ta_nul = c.ta_nul ∧
    (_m6526_set_crb c d).1.tb_nul = c.tb_nul ∧ (_m6526_set_crb c d).1.cra = c.cra := by
  unfold _m6526_set_crb
  simp only []
  split_ifs <;> simp [out_b_fst]

theorem set_cra_keeps_timer_bits_ok (c : m6526_t) (d : Nat) (h : timer_bits_ok c) :
    timer_bits_ok (_m6526_set_cra c d).1 := by
  obtain ⟨h1, h2, h3, h4, h5, h6⟩ := h
  obtain ⟨f1, f2, _, f4⟩ := set_cra_fst c d
  obtain ⟨g1, g2, g3, g4⟩ := set_cra_timer_frame c d
  have fl : M6526_CRA_FORCE_LOAD = 16 := rfl
  unfold timer_bits_ok
  rw [f4, g1, g2, g3, f2, g4]
  refine ⟨?_, h2, h3, h4, ?_, h6⟩
  · split_ifs
    · exact le_refl 1
    · exact h1
  · rw [fl]
    split_ifs with hd
    · exact force_load_stripped d
    · exact not_not.mp hd

theorem set_crb_keeps_timer_bits_ok (c : m6526_t) (d : Nat) (h : timer_bits_ok c) :
    timer_bits_ok (_m6526_set_crb c d).1 := by
  obtain ⟨h1, h2, h3, h4, h5, h6⟩ := h
  obtain ⟨f1, f2, _, f4⟩ := set_crb_fst c d
  obtain ⟨g1, g2, g3, g4⟩ := set_crb_timer_frame c d
  have fl : M6526_CRB_FORCE_LOAD = 16 := rfl
  unfold timer_bits_ok
  rw [g1, f4, g2, g3, g4, f2]
  refine ⟨h1, ?_, h3, h4, h5, ?_⟩
  · split_ifs
    · exact le_refl 1
    · exact h2
  · rw [fl]
    split_ifs with hd
    · exact force_load_stripped d
    · exact not_not.mp hd

theorem write_keeps_timer_bits_ok (c : m6526_t) (a d : Nat) (h : timer_bits_ok c) :
    timer_bits_ok (_m6526_write c a d).1 := by
  unfold _m6526_write
  split
  · rw [out_a_fst]; exact h
  · rw [out_b_fst]; exact h
  · rw [out_a_fst]; exact h
  · rw [out_b_fst]; exact h
  · simp only []; split_ifs <;> exact h
  · simp only []
    split_ifs
    · exact set_cra_keeps_timer_bits_ok _ _ h
    · exact h
    · exact set_cra_keeps_timer_bits_ok _ _ h
    · exact h
  · simp only []; split_ifs <;> exact h
  · simp only []
    split_ifs
    · exact set_crb_keeps_timer_bits_ok _ _ h
    · exact h
    · exact set_crb_keeps_timer_bits_ok _ _ h
    · exact h
  · split_ifs <;> exact h
  · exact set_cra_keeps_timer_bits_ok c d h
  · exact set_crb_keeps_timer_bits_ok c d h
  · exact h

theorem read_keeps_timer_bits_ok (c : m6526_t) (i a : Nat) (h : timer_bits_ok c) :
    timer_bits_ok (_m6526_read c i a).1 := by
  unfold _m6526_read
  split <;> exact h

theorem apply_keeps_timer_bits_ok (c : m6526_t) (e : m6526_call) (h : timer_bits_ok c) :
    timer_bits_ok (m6526_apply c e).1 := by
  cases e with
  | iorq i pins =>
    show timer_bits_ok (m6526_iorq c i pins).1
    rcases iorq_state_cases c i pins with e | ⟨a, d, e⟩ | ⟨a, e⟩
    · rw [e]; exact h
    · rw [e]; exact write_keeps_timer_bits_ok c a d h
    · rw [e]; exact read_keeps_timer_bits_ok c i a h
  | tick pins => exact h
  | reset => exact ⟨Nat.zero_le 1, Nat.zero_le 1, rfl, rfl, Nat.zero_and _, Nat.zero_and _⟩

theorem run_keeps_timer_bits_ok (calls : List m6526_call) :
    ∀ c : m6526_t, timer_bits_ok c → timer_bits_ok (m6526_run c calls) := by
  induction calls with
  | nil => intro c h; exact h
  | cons e es ih => intro c h; exact ih _ (apply_keeps_timer_bits_ok c e h)

/-- With timer output bits that are 0 or 1, the override of `_m6526_out_b` and
`_m6526_in_b` leaves every bit of a byte other than bits 6 and 7 as it is. -/
theorem pb_override_other_bits (c : m6526_t) (x k : Nat) (h : timer_bits_ok c)
    (hx : x < 256) (h6 : k ≠ 6) (h7 : k ≠ 7) :
    (pb_override c x).testBit k = x.testBit k := by
  obtain ⟨h1, h2, h3, h4, _, _⟩ := h
  by_cases hk : k < 8
  · have hpb6 : (if c.cra &&& M6526_CRA_OUTMODE ≠ 0 then c.ta_bit else c.ta_nul) ≤ 1 := by
      split_ifs
      · exact h1
      · rw [h3]; exact Nat.zero_le 1
    have hpb7 : (if c.crb &&& M6526_CRB_OUTMODE ≠ 0 then c.tb_bit else c.tb_nul) ≤ 1 := by
      split_ifs
      · exact h2
      · rw [h4]; exact Nat.zero_le 1
    unfold pb_override
    simp only []
    by_cases hA : c.cra &&& M6526_CRA_PBON = M6526_CRA_PBON_PB6ON <;>
      by_cases hB : c.crb &&& M6526_CRB_PBON = M6526_CRB_PBON_PB7ON
    · rw [if_pos hA, if_pos hB, merge_bit_testBit _ 7 _ k hpb7 (by norm_num) hk, if_neg h7,
        merge_bit_testBit _ 6 _ k hpb6 (by norm_num) hk, if_neg h6]
    · rw [if_pos hA, if_neg hB, merge_bit_testBit _ 6 _ k hpb6 (by norm_num) hk, if_neg h6]
    · rw [if_neg hA, if_pos hB, merge_bit_testBit _ 7 _ k hpb7 (by norm_num) hk, if_neg h7]
    · rw [if_neg hA, if_neg hB]
  · rw [testBit_byte_high _ k (pb_override_lt c x hx) (by omega),
      testBit_byte_high x k hx (by omega)]

/-- C24: in every chip state reachable from `m6526_init` by a finite sequence of
`m6526_iorq`, `m6526_tick` and `m6526_reset` calls, `ta_bit` and `tb_bit` are 0 or 1,
`ta_nul` and `tb_nul` are 0 and bit 4 (force-load) of the stored `cra` and `crb` is 0;
consequently the port-B timer override of `_m6526_out_b` and `_m6526_in_b` leaves every
bit other than bits 6 and 7 of the port-B byte unchanged. -/
theorem reachable_timer_bits (in_cb out_cb : Nat) (c0 : m6526_t)
    (calls : List m6526_call) (h0 : m6526_init in_cb out_cb = some c0) :
    ((m6526_run c0 calls).ta_bit = 0 ∨ (m6526_run c0 calls).ta_bit = 1) ∧
    ((m6526_run c0 calls).tb_bit = 0 ∨ (m6526_run c0 calls).tb_bit = 1) ∧
    (m6526_run c0 calls).ta_nul = 0 ∧ (m6526_run c0 calls).tb_nul = 0 ∧
    (m6526_run c0 calls).cra.testBit 4 = false ∧
    (m6526_run c0 calls).crb.testBit 4 = false ∧
    (∀ x k, x < 256 → k ≠ 6 → k ≠ 7 →
      (pb_override (m6526_run c0 calls) x).testBit k = x.testBit k) := by
  have hinit : timer_bits_ok c0 := by
    unfold m6526_init at h0
    split_ifs at h0
    cases h0
    exact ⟨Nat.zero_le 1, Nat.zero_le 1, rfl, rfl, Nat.zero_and _, Nat.zero_and _⟩
  have hok := run_keeps_timer_bits_ok calls c0 hinit
  have hbit : ∀ v : Nat, v &&& 16 = 0 → v.testBit 4 = false := by
    intro v hv
    have h4 : (v &&& 16).testBit 4 = false := by rw [hv]; exact Nat.zero_testBit 4
    rw [Nat.testBit_and] at h4
    have : Nat.testBit 16 4 = true := by decide
    simpa [this] using h4
  obtain ⟨h1, h2, h3, h4, h5, h6⟩ := hok
  refine ⟨by omega, by omega, h3, h4, hbit _ h5, hbit _ h6,
    fun x k hx hk6 hk7 => pb_override_other_bits _ x k ⟨h1, h2, h3, h4, h5, h6⟩ hx hk6 hk7⟩

/-- C24 at the callbacks 1 and 2 and the calls: write 0x17 to register 14 (start,
port output, toggle mode, force load), write 0x13 to register 15, tick. -/
theorem reachable_timer_bits_witness :
    ∃ c0, m6526_init 1 2 = some c0 ∧
      (m6526_run c0
        [m6526_call.iorq 0 0x1000017000E, m6526_call.iorq 0 0x1000013000F,
          m6526_call.tick 0]).ta_bit = 1 ∧
      (m6526_run c0
        [m6526_call.iorq 0 0x1000017000E, m6526_call.iorq 0 0x1000013000F,
          m6526_call.tick 0]).cra = 0x07 ∧
      (m6526_run c0
        [m6526_call.iorq 0 0x1000017000E, m6526_call.iorq 0 0x1000013000F,
          m6526_call.tick 0]).cra.testBit 4 = false ∧
      (pb_override
        (m6526_run c0
          [m6526_call.iorq 0 0x1000017000E, m6526_call.iorq 0 0x1000013000F,
            m6526_call.tick 0]) 0x3F).testBit 5 = Nat.testBit 0x3F 5 :=
  ⟨_, rfl, by decide, by decide,
    (reachable_timer_bits 1 2 _
      [m6526_call.iorq 0 0x1000017000E, m6526_call.iorq 0 0x1000013000F,
        m6526_call.tick 0] rfl).2.2.2.2.1,
    (reachable_timer_bits 1 2 _
      [m6526_call.iorq 0 0x1000017000E, m6526_call.iorq 0 0x1000013000F,
        m6526_call.tick 0] rfl).2.2.2.2.2.2 0x3F 5 (by decide) (by decide) (by decide)⟩

/-! ## Reset -/

/-- C25: for every chip state `s`, `m6526_reset s` is the state `m6526_init` builds from the
callbacks of `s`: every register, latch, counter, cached port byte and flag has its
power-on value and the callbacks are those of `s`; when these are non-null (as in every
state made by `m6526_init`) the call `m6526_init(s.in_cb, s.out_cb)` succeeds with exactly
this state.  Reset invokes no callback. -/
theorem reset_equals_init (s : m6526_t) :
    m6526_reset s =
      { zeroed with
        in_cb := s.in_cb, out_cb := s.out_cb,
        ta_latch := 0xFFFF, tb_latch := 0xFFFF,
        pa := 0xFF, pb := 0xFF } ∧
    (s.in_cb ≠ 0 → s.out_cb ≠ 0 → m6526_init s.in_cb s.out_cb = some (m6526_reset s)) ∧
    (m6526_apply s m6526_call.reset).2 = [] := by
  refine ⟨rfl, fun hin hout => ?_, rfl⟩
  unfold m6526_init
  rw [if_pos ⟨hin, hout⟩]
  rfl

/-- C25 at a state with callbacks 1 and 2 and every other field non-trivial. -/
theorem reset_equals_init_witness :
    ((1 : Nat) ≠ 0 ∧ (2 : Nat) ≠ 0) ∧
    m6526_init 1 2 =
      some (m6526_reset
        { pra := 1, ddra := 2, pa := 3, pa_in := 4, prb := 5, ddrb := 6, pb := 7, pb_in := 8,
          ta_latch := 9, tb_latch := 10, ta_counter := 11, tb_counter := 12,
          cra := 13, crb := 14, icr_mask := 15, icr_data := 16,
          ta_bit := 1, tb_bit := 1, ta_nul := 1, tb_nul := 1,
          irq := true, in_cb := 1, out_cb := 2 }) :=
  ⟨by decide,
    (reset_equals_init
      { pra := 1, ddra := 2, pa := 3, pa_in := 4, prb := 5, ddrb := 6, pb := 7, pb_in := 8,
        ta_latch := 9, tb_latch := 10, ta_counter := 11, tb_counter := 12,
        cra := 13, crb := 14, icr_mask := 15, icr_data := 16,
        ta_bit := 1, tb_bit := 1, ta_nul := 1, tb_nul := 1,
        irq := true, in_cb := 1, out_cb := 2 }).2.1 (by decide) (by decide)⟩

end M6526

namespace Beeper

/-! ## Beeper: the tick loop ends within four iterations -/

/-- The loop started with a super-sample counter between 1 and the fuel either overflows
or ends: after `m - n` further executions of its body, with the value `true` exactly when
the counter reached 0 (then it is 4 again), and otherwise with the counter lowered by the
number of executions and a positive tick counter. -/
theorem beeper_loop_spec {F : Type} (ops : float_ops F) :
    ∀ (fuel : Nat) (b : beeper_t F) (n : Nat),
      1 ≤ b.super_sample_counter → b.super_sample_counter ≤ (fuel : Int) →
      beeper_loop ops fuel b n ≠ Except.error tick_error.overflow →
      ∃ b2 r m, beeper_loop ops fuel b n = Except.ok (b2, r, m) ∧ n ≤ m ∧
        ((m : Int) - n ≤ b.super_sample_counter) ∧
        (r = true → (m : Int) - n = b.super_sample_counter ∧ b2.super_sample_counter = 4) ∧
        (r = false → (m : Int) - n < b.super_sample_counter ∧
          b2.super_sample_counter = b.super_sample_counter - ((m : Int) - n) ∧
          0 < b2.tick_counter) := by
  intro fuel
  induction fuel with
  | zero =>
    intro b n h1 h2 _
    simp at h2
    omega
  | succ fuel ih =>
    intro b n h1 h2 hno
    unfold beeper_loop at hno ⊢
    by_cases htc : b.tick_counter ≤ 0
    · rw [if_pos htc] at hno ⊢
      by_cases hov : int_ok (b.tick_counter + b.period)
      · rw [if_pos hov] at hno ⊢
        by_cases hst : b.state = true
        · simp only [hst, if_true] at hno ⊢
          by_cases hov2 : int_ok (b.super_sample_counter - 1)
          · rw [if_pos hov2] at hno ⊢
            by_cases hz : b.super_sample_counter - 1 = (0 : Int)
            · rw [if_pos hz]
              refine ⟨_, true, n + 1, rfl, by omega, by push_cast; omega,
                fun _ => ⟨by push_cast; omega, rfl⟩, fun h => by simp at h⟩
            · rw [if_neg hz] at hno ⊢
              obtain ⟨b2, r, m, e, hm, hle, ht, hf⟩ :=
                ih _ (n + 1) (by show 1 ≤ b.super_sample_counter - 1; omega)
                  (by show b.super_sample_counter - 1 ≤ (fuel : Int); push_cast at h2; omega)
                  hno
              have e1 : ((n + 1 : Nat) : Int) = (n : Int) + 1 := by push_cast; rfl
              refine ⟨b2, r, m, e, by omega, ?_, ?_, ?_⟩
              · have := hle
                simp only [e1] at this
                omega
              · intro hr
                obtain ⟨t1, t2⟩ := ht hr
                simp only [e1] at t1
                exact ⟨by omega, t2⟩
              · intro hr
                obtain ⟨t1, t2, t3⟩ := hf hr
                simp only [e1] at t1 t2
                exact ⟨by omega, by rw [t2]; omega, t3⟩
          · rw [if_neg hov2] at hno
            exact absurd rfl hno
        · simp only [hst, Bool.false_eq_true, if_false] at hno ⊢
          by_cases hov2 : int_ok (b.super_sample_counter - 1)
          · rw [if_pos hov2] at hno ⊢
            by_cases hz : b.super_sample_counter - 1 = (0 : Int)
            · rw [if_pos hz]
              refine ⟨_, true, n + 1, rfl, by omega, by push_cast; omega,
                fun _ => ⟨by push_cast; omega, rfl⟩, fun h => by simp at h⟩
            · rw [if_neg hz] at hno ⊢
              obtain ⟨b2, r, m, e, hm, hle, ht, hf⟩ :=
                ih _ (n + 1) (by show 1 ≤ b.super_sample_counter - 1; omega)
                  (by show b.super_sample_counter - 1 ≤ (fuel : Int); push_cast at h2; omega)
                  hno
              have e1 : ((n + 1 : Nat) : Int) = (n : Int) + 1 := by push_cast; rfl
              refine ⟨b2, r, m, e, by omega, ?_, ?_, ?_⟩
              · have := hle
                simp only [e1] at this
                omega
              · intro hr
                obtain ⟨t1, t2⟩ := ht hr
                simp only [e1] at t1
                exact ⟨by omega, t2⟩
              · intro hr
                obtain ⟨t1, t2, t3⟩ := hf hr
                simp only [e1] at t1 t2
                exact ⟨by omega, by rw [t2]; omega, t3⟩
          · rw [if_neg hov2] at hno
            exact absurd rfl hno
      · rw [if_neg hov] at hno
        exact absurd rfl hno
    · rw [if_neg htc]
      refine ⟨b, false, n, rfl, le_refl n, by omega, fun h => by simp at h,
        fun _ => ⟨by omega, by omega, by omega⟩⟩

/-- C26: for every beeper state with `1 <= super_sample_counter <= 4` (the counter is 4
after `beeper_init` and after `beeper_reset`) and every `num_ticks` and `period`, also
`period <= 0`, for which no `int` operation overflows, `beeper_tick` ends after at most 4
executions of its loop body (any fuel of at least 4 gives the result), the resulting
`super_sample_counter` is again in 1..4, and the value returned is `true` exactly when the
counter reached 0 during the call, in which case it was set to 4 again. -/
theorem beeper_tick_ends_within_four {F : Type} (ops : float_ops F) (b : beeper_t F)
    (num_ticks : Int) (fuel : Nat)
    (hs : 1 ≤ b.super_sample_counter ∧ b.super_sample_counter ≤ 4) (hfuel : 4 ≤ fuel)
    (hno : beeper_tick ops fuel b num_ticks ≠ Except.error tick_error.overflow) :
    (∃ b2 r n, beeper_tick ops fuel b num_ticks = Except.ok (b2, r, n) ∧ n ≤ 4 ∧
      (1 ≤ b2.super_sample_counter ∧ b2.super_sample_counter ≤ 4) ∧
      (r = true ↔ (n : Int) = b.super_sample_counter) ∧
      (r = true → b2.super_sample_counter = 4) ∧
      (r = false → b2.super_sample_counter = b.super_sample_counter - n ∧
        0 < b2.tick_counter)) ∧
    (beeper_reset b).super_sample_counter = 4 ∧
    (∀ tick_hz sound_hz magnitude b0,
      beeper_init ops tick_hz sound_hz magnitude = some b0 → b0.super_sample_counter = 4) := by
  refine ⟨?_, rfl, ?_⟩
  · unfold beeper_tick at hno ⊢
    by_cases hov : int_ok (num_ticks * BEEPER_PRECISION_BOOST) ∧
        int_ok (b.tick_counter - num_ticks * BEEPER_PRECISION_BOOST)
    · rw [if_pos hov] at hno ⊢
      obtain ⟨b2, r, n, e, _, hle, ht, hf⟩ :=
        beeper_loop_spec ops fuel
          { b with tick_counter := b.tick_counter - num_ticks * BEEPER_PRECISION_BOOST } 0
          hs.1 (by show b.super_sample_counter ≤ (fuel : Int); omega) hno
      have hle2 : (n : Int) - ((0 : Nat) : Int) ≤ b.super_sample_counter := hle
      refine ⟨b2, r, n, e, by omega, ?_, ?_, ?_, ?_⟩
      · cases r with
        | true =>
          obtain ⟨_, t2⟩ := ht rfl
          rw [t2]; exact ⟨by norm_num, by norm_num⟩
        | false =>
          obtain ⟨t1, t2, _⟩ := hf rfl
          have t1a : (n : Int) - ((0 : Nat) : Int) < b.super_sample_counter := t1
          have t2a : b2.super_sample_counter
              = b.super_sample_counter - ((n : Int) - ((0 : Nat) : Int)) := t2
          constructor <;> omega
      · cases r with
        | true =>
          obtain ⟨t1, _⟩ := ht rfl
          have t1a : (n : Int) - ((0 : Nat) : Int) = b.super_sample_counter := t1
          exact ⟨fun _ => by omega, fun _ => rfl⟩
        | false =>
          obtain ⟨t1, _, _⟩ := hf rfl
          have t1a : (n : Int) - ((0 : Nat) : Int) < b.super_sample_counter := t1
          exact ⟨fun h => by simp at h, fun h => by omega⟩
      · intro hr
        exact (ht hr).2
      · intro hr
        obtain ⟨_, t2, t3⟩ := hf hr
        have t2a : b2.super_sample_counter
            = b.super_sample_counter - ((n : Int) - ((0 : Nat) : Int)) := t2
        exact ⟨by omega, t3⟩
    · rw [if_neg hov] at hno
      exact absurd rfl hno
  · intro tick_hz sound_hz magnitude b0 h
    unfold beeper_init at h
    split_ifs at h
    cases h
    rfl

/-- C26 at a switched-on beeper with `period = 0`, `tick_counter = 0`,
`super_sample_counter = 4`, one tick and fuel 4 (sample values in a carrier of natural
numbers): the loop body runs four times and the call returns `true` with the counter back
at 4. -/
theorem beeper_tick_ends_within_four_witness :
    ((1 : Int) ≤ 4 ∧ (4 : Int) ≤ 4) ∧ (4 ≤ 4) ∧
    beeper_tick
        { add := fun x y => x + y, div_int := fun x _ => x / 4, zero := 0 } 4
        { state := true, period := 0, tick_counter := 0, super_sample_counter := 4,
          mag := 1, acc := 0, sample := 0 } 1
      = Except.ok
        ({ state := true, period := 0, tick_counter := -16, super_sample_counter := 4,
           mag := 1, acc := 0, sample := 1 }, true, 4) ∧
    ∃ b2 r n,
      beeper_tick
          { add := fun x y => x + y, div_int := fun x _ => x / 4, zero := 0 } 4
          { state := true, period := 0, tick_counter := 0, super_sample_counter := 4,
            mag := (1 : Nat), acc := 0, sample := 0 } 1
        = Except.ok (b2, r, n) ∧ n ≤ 4 ∧
      (1 ≤ b2.super_sample_counter ∧ b2.super_sample_counter ≤ 4) ∧
      (r = true ↔ (n : Int) = 4) := by
  have e : beeper_tick
        { add := fun x y => x + y, div_int := fun x _ => x / 4, zero := 0 } 4
        { state := true, period := 0, tick_counter := 0, super_sample_counter := 4,
          mag := (1 : Nat), acc := 0, sample := 0 } 1
      = Except.ok
        ({ state := true, period := 0, tick_counter := -16, super_sample_counter := 4,
           mag := 1, acc := 0, sample := 1 }, true, 4) := by
    rfl
  obtain ⟨b2, r, n, e2, hn, hc, hr, _⟩ :=
    (beeper_tick_ends_within_four
      { add := fun x y => x + y, div_int := fun x _ => x / 4, zero := 0 }
      { state := true, period := 0, tick_counter := 0, super_sample_counter := 4,
        mag := (1 : Nat), acc := 0, sample := 0 } 1 4 (by decide) (by decide)
      (by rw [e]; exact fun h => Except.noConfusion h)).1
  exact ⟨by decide, by decide, e, b2, r, n, e2, hn, hc, hr⟩

end Beeper
